import Mathlib

/-!
Verification development for the `myclinic-backup` command
(`cmd/myclinic-backup/myclinic-backup.go`): a shallow embedding of its
path/key derivation functions and of its orchestration pipeline, together
with theorems about the derived paths, the dry-run mode and the error
propagation.

Strings are modelled by Lean `String` (a wrapper around `List Char`);
the helper functions from Go's standard library that the program calls
(`filepath.Clean`, `filepath.Split`, `filepath.Dir`, `filepath.Base`,
`time.Time.Format`, `regexp.ReplaceAllString` for the one fixed pattern
the program compiles) are modelled faithfully on `List Char`.
-/

/-! ## Decimal formatting (Go `time.Time.Format` layouts "2006-01" and "200601021504")

Go formats each numeric field zero-padded to the layout's width, printing
more digits only when the value does not fit (e.g. year 10000 prints as
"10000").  `digitChar d` is the ASCII digit of `d % 10`. -/

def digitChar (d : Nat) : Char := Char.ofNat (48 + d % 10)

/-- Decimal digits of `n`, most significant first, via an explicit fuel
parameter so that the definition is structurally recursive (the fuel
`n + 1` always suffices). -/
def decDigitsAux : Nat → Nat → List Char
  | 0, _ => []
  | f + 1, n => if n < 10 then [digitChar n] else decDigitsAux f (n / 10) ++ [digitChar (n % 10)]

def decDigits (n : Nat) : List Char := decDigitsAux (n + 1) n

/-- Go's zero-padded fixed-width integer formatting (`appendInt` with width `w`):
pads with `'0'` on the left up to width `w`, never truncates. -/
def fmtInt (w n : Nat) : List Char := List.replicate (w - (decDigits n).length) '0' ++ decDigits n

/-- A wall-clock instant at minute granularity: the program captures
`time.Now()` once and only ever formats its year, month, day, hour and
minute. -/
structure DateTime where
  year : Nat
  month : Nat
  day : Nat
  hour : Nat
  minute : Nat
deriving DecidableEq

/-- Calendar-valid field ranges for a timestamp (what `time.Now()` produces). -/
def ValidTime (t : DateTime) : Prop :=
  1 ≤ t.month ∧ t.month ≤ 12 ∧ 1 ≤ t.day ∧ t.day ≤ 31 ∧ t.hour ≤ 23 ∧ t.minute ≤ 59

instance (t : DateTime) : Decidable (ValidTime t) := by
  unfold ValidTime; infer_instance

/-- Source `dirPart`: `dateTime.Format("2006-01")`. -/
def dirPart (t : DateTime) : String := ⟨fmtInt 4 t.year ++ '-' :: fmtInt 2 t.month⟩

/-- The `dateTime.Format("200601021504")` timestamp block used by `filePart`. -/
def stampPart (t : DateTime) : List Char :=
  fmtInt 4 t.year ++ fmtInt 2 t.month ++ fmtInt 2 t.day ++ fmtInt 2 t.hour ++ fmtInt 2 t.minute

/-- Source `filePart`: `"dump-" + dateTime.Format("200601021504") + ".sql"`. -/
def filePart (t : DateTime) : String :=
  ⟨'d' :: 'u' :: 'm' :: 'p' :: '-' :: stampPart t ++ ['.', 's', 'q', 'l']⟩

/-! ## Go `path/filepath` on Unix

On Unix `filepath.Separator` is `'/'`, so `filepath.ToSlash` is the
identity and `filepath.Clean` coincides with `path.Clean`.  `Clean` is
modelled by splitting on `'/'`, folding the segments through a stack that
drops `""` and `"."`, resolves `".."`, and re-joining. -/

def toSlash (p : String) : String := p

/-- Split a character list into its `'/'`-separated segments; always
returns at least one (possibly empty) segment. -/
def splitSegs : List Char → List (List Char)
  | [] => [[]]
  | c :: cs =>
    if c = '/' then [] :: splitSegs cs
    else
      match splitSegs cs with
      | [] => [[c]]
      | s :: rest => (c :: s) :: rest

/-- Join segments with `'/'` separators. -/
def joinSegs : List (List Char) → List Char
  | [] => []
  | [s] => s
  | s :: rest => s ++ '/' :: joinSegs rest

/-- The `".."` segment. -/
def dotdot : List Char := ['.', '.']

/-- One step of `path.Clean`'s segment processing.  The stack `st` has the
most recently emitted segment first.  Empty and `"."` segments vanish;
`".."` pops a normal segment, is dropped at the root, and accumulates when
the (relative) stack is empty or already ends in `".."`; any other segment
is pushed. -/
def cleanStep (rooted : Bool) (st : List (List Char)) (seg : List Char) : List (List Char) :=
  if seg = [] ∨ seg = ['.'] then st
  else if seg = dotdot then
    match st with
    | [] => if rooted then [] else [dotdot]
    | t :: rest => if t = dotdot then dotdot :: t :: rest else rest
  else seg :: st

def isRooted : List Char → Bool
  | [] => false
  | c :: _ => c = '/'

def cleanStack (rooted : Bool) (segs : List (List Char)) : List (List Char) :=
  segs.foldl (cleanStep rooted) []

/-- Go `path.Clean` on character lists. -/
def cleanChars (p : List Char) : List Char :=
  let rooted := isRooted p
  let body := joinSegs (cleanStack rooted (splitSegs p)).reverse
  if rooted then (if body = [] then ['/'] else '/' :: body)
  else (if body = [] then ['.'] else body)

/-- Go `filepath.Clean` (Unix). -/
def goClean (p : String) : String := ⟨cleanChars p.data⟩

/-- Go `filepath.Split`: splits after the final `'/'`; the directory part
keeps its trailing separator. -/
def goSplit (p : String) : String × String :=
  let r := p.data.reverse
  (⟨(r.dropWhile (fun c => c ≠ '/')).reverse⟩, ⟨(r.takeWhile (fun c => c ≠ '/')).reverse⟩)

/-- Go `filepath.Dir` (Unix, no volume): `Clean` of the `Split` directory part. -/
def goDir (p : String) : String := goClean (goSplit p).1

/-- Go `filepath.Base` (Unix, no volume): strip trailing separators, then
keep everything after the last remaining separator. -/
def goBase (p : String) : String :=
  if p = "" then "."
  else
    let r := p.data.reverse.dropWhile (fun c => c = '/')
    if r = [] then "/"
    else ⟨(r.takeWhile (fun c => c ≠ '/')).reverse⟩

/-! ## The suffix rewrite (`encryptedBackupResult`)

The source compiles the pattern ``(.+)(\.(\w+))$`` and applies
`ReplaceAllString(src, "$1-$3.cf")`.  Because the pattern is anchored at
the end of the text there is at most one match; `(.+)` is greedy and `.`
does not match a newline, so a match exists exactly when the text ends in
`'.'` followed by a non-empty run of word characters (`[0-9A-Za-z_]`),
with at least one character that is not a newline between the last
newline (or the start) and that final dot.  The replacement keeps the
unmatched prefix, joins `$1` and the extension with `'-'` and appends
`".cf"`. -/

def isWordChar (c : Char) : Bool := c.isAlphanum || c = '_'

def encChars (src : List Char) : List Char :=
  let r := src.reverse
  let ext := r.takeWhile isWordChar
  match r.dropWhile isWordChar with
  | '.' :: pre =>
    let seg := pre.takeWhile (fun c => c ≠ '\n')
    if ext = [] ∨ seg = [] then src
    else
      (pre.dropWhile (fun c => c ≠ '\n')).reverse ++
        seg.reverse ++ '-' :: ext.reverse ++ ['.', 'c', 'f']
  | _ => src

/-- Source `encryptedBackupResult`. -/
def encryptedBackupResult (src : String) : String := ⟨encChars src.data⟩

/-- Source `createBackupFilePath`:
`filepath.Clean(filepath.ToSlash(dir + "/" + dirPart(t) + "/" + filePart(t)))`. -/
def createBackupFilePath (dir : String) (t : DateTime) : String :=
  goClean (toSlash (dir ++ "/" ++ dirPart t ++ "/" ++ filePart t))

/-- Source `createS3Key`: basename of the file joined under the
basename of its parent directory. -/
def createS3Key (encryptedFile : String) : String :=
  let dir := (goSplit encryptedFile).1
  let base := (goSplit encryptedFile).2
  let dirbase := (goSplit (goClean (dir ++ "."))).2
  dirbase ++ "/" ++ base

example : createBackupFilePath "/backup" ⟨2024, 1, 15, 9, 30⟩ =
    "/backup/2024-01/dump-202401150930.sql" := by decide

example : encryptedBackupResult "/ebackup/2024-01/dump-202401150930.sql" =
    "/ebackup/2024-01/dump-202401150930-sql.cf" := by decide

example : createS3Key "/ebackup/2024-01/dump-202401150930-sql.cf" =
    "2024-01/dump-202401150930-sql.cf" := by decide

example : encryptedBackupResult "/a/b/noext" = "/a/b/noext" := by decide

example : goClean "a/./b//c/.." = "a/b" := by decide

example : goClean "" = "." := by decide

/-! ## The orchestration pipeline

`main` sequences environment reads, the dump, the encryption and the
upload.  The observable behaviour of one invocation is modelled as the
list of events it performs (prints, directory creation, collaborator
invocations) together with how the process ends.  The outcomes of the
external collaborators (the `mysqldump` process, `cflib`, the filesystem,
S3) are inputs of the model, collected in `Collab`. -/

inductive Event where
  | stdout (s : String)
  | stderr (s : String)
  | mkdirAll (dir : String)
  | runDump (user pass resultFile : String)
  | readKeyFile (path : String)
  | readFile (path : String)
  | encryptCall (key plain : List Nat)
  | writeFile (path : String) (contents : List Nat)
  | openFile (path : String)
  | s3Upload (region bucket key filename : String)
deriving DecidableEq

/-- How the process ends: `os.Exit(code)`, a Go `panic`, or falling off
the end of `main` (process exit status 0). -/
inductive Outcome where
  | exited (code : Nat)
  | panicked (msg : String)
  | completed
deriving DecidableEq

/-- The result of `exec.Cmd.Run`: either the process could not be started,
or it ran and exited with the given code.  `Run` returns a non-nil error
exactly when the start failed or the exit code is non-zero (an
`*ExitError`, whose message is `"exit status N"`). -/
inductive RunResult where
  | launchError (msg : String)
  | exited (code : Nat)
deriving DecidableEq

def runError : RunResult → Option String
  | .launchError m => some m
  | .exited 0 => none
  | .exited (k + 1) => some ("exit status " ++ toString (k + 1))

def exitCodeOf : RunResult → Nat
  | .launchError _ => 0
  | .exited k => k

/-- Outcomes of the external collaborators for one run. -/
structure Collab where
  /-- `os.MkdirAll` result inside `dumpMysql` (`none` = success). -/
  dumpMkdir : Option String
  /-- the `mysqldump` process. -/
  dumpRun : RunResult
  /-- `cflib.ReadKeyFile` result: key bytes or an error. -/
  keyFile : Except String (List Nat)
  /-- `os.MkdirAll` result inside `encryptBackupFile`. -/
  encMkdir : Option String
  /-- `ioutil.ReadFile(srcPath)` result: plaintext bytes or an error. -/
  readSrc : Except String (List Nat)
  /-- `cflib.CompressAndEncrypt(key, in)`: ciphertext bytes and error. -/
  compressAndEncrypt : List Nat → List Nat → List Nat × Option String
  /-- `ioutil.WriteFile(dstPath, enc, 0600)` result. -/
  writeDst : Option String
  /-- `os.Open(filename)` result inside `uploadToS3`. -/
  uploadOpen : Option String
  /-- `uploader.Upload` result. -/
  uploadErr : Option String

/-- A computation that emits events and either terminates the process
(`Except.error`) or produces a value. -/
def Exec (α : Type) : Type := List Event × Except Outcome α

def Exec.pure {α : Type} (a : α) : Exec α := ([], .ok a)

def Exec.bind {α β : Type} (x : Exec α) (f : α → Exec β) : Exec β :=
  match x with
  | (es, .ok a) => (es ++ (f a).1, (f a).2)
  | (es, .error o) => (es, .error o)

instance : Monad Exec where
  pure := Exec.pure
  bind := Exec.bind

def emit (e : Event) : Exec Unit := ([e], .ok ())

/-- Go `os.Exit(n)`. -/
def exitProc {α : Type} (n : Nat) : Exec α := ([], .error (.exited n))

/-- Go `panic(err)`. -/
def panicProc {α : Type} (msg : String) : Exec α := ([], .error (.panicked msg))

/-- Names of the configuration environment variables (the `const` block). -/
def mysqlUserEnvVar : String := "MYCLINIC_DB_USER"
def mysqlPassEnvVar : String := "MYCLINIC_DB_PASS"
def backupDirEnvVar : String := "MYCLINIC_BACKUP_DIR"
def encryptedBackupDirEnvVar : String := "MYCLINIC_BACKUP_ENCRYPTED_DIR"
def encryptionKey : String := "MYCLINIC_BACKUP_ENCRYPTION_KEY"
def s3BackupRegionEnvVar : String := "MYCLINIC_BACKUP_S3_REGION"
def s3BackupBucketEnvVar : String := "MYCLINIC_BACKUP_S3_BUCKET"

/-- An environment, as `os.Getenv` sees it: unset variables read as `""`. -/
def Env : Type := String → String

/-- Source `getenv`: reads the variable, and on an empty value
prints `"cannot get env var <name>"` to stderr and exits with status 1. -/
def getenv (env : Env) (name : String) : Exec String :=
  if env name = "" then
    Exec.bind (emit (.stderr ("cannot get env var " ++ name))) fun _ => exitProc 1
  else Exec.pure (env name)

/-- Source `dumpMysql`.  Note that the parent directory is
created (`os.MkdirAll`) before the database credentials are read via
`getenv`. -/
def dumpMysql (env : Env) (ext : Collab) (backupFile : String) : Exec (Option String) := do
  let dir := goDir backupFile
  emit (.mkdirAll dir)
  match ext.dumpMkdir with
  | some e => Exec.pure (some e)
  | none => do
    let user ← getenv env mysqlUserEnvVar
    let pass ← getenv env mysqlPassEnvVar
    emit (.runDump user pass backupFile)
    match runError ext.dumpRun with
    | some e => Exec.pure (some e)
    | none =>
      if exitCodeOf ext.dumpRun ≠ 0 then
        Exec.pure (some ("mysqldump failed with exit code: " ++ toString (exitCodeOf ext.dumpRun)))
      else Exec.pure none

/-- Source `getEncryptionKey`: reads the key path with a plain
`os.Getenv` (returning an error, not exiting, when unset), then loads the
key file. -/
def getEncryptionKey (env : Env) (ext : Collab) : Exec (Except String (List Nat)) :=
  if env encryptionKey = "" then
    Exec.pure (.error ("Cannot get key path from $" ++ encryptionKey))
  else
    Exec.bind (emit (.readKeyFile (env encryptionKey))) fun _ => Exec.pure ext.keyFile

/-- Source `encryptBackupFile`.  The error returned by
`cflib.CompressAndEncrypt` is bound to `err` and immediately overwritten
by the `ioutil.WriteFile` assignment without being checked, and the
function then executes `return nil`, so neither the encryption error nor
the write error is ever returned; this model reproduces that. -/
def encryptBackupFile (ext : Collab) (dstPath : String) (key : List Nat) (srcPath : String) :
    Exec (Option String) := do
  emit (.stdout ("dstPath " ++ dstPath ++ "\n"))
  let dir := goDir dstPath
  emit (.stdout ("dst dir " ++ dir ++ "\n"))
  emit (.mkdirAll dir)
  match ext.encMkdir with
  | some e => Exec.pure (some e)
  | none => do
    emit (.readFile srcPath)
    match ext.readSrc with
    | .error e => Exec.pure (some e)
    | .ok plain => do
      emit (.encryptCall key plain)
      let enc := (ext.compressAndEncrypt key plain).1
      emit (.writeFile dstPath enc)
      let _ := ext.writeDst
      Exec.pure none

/-- Source `uploadToS3` (the AWS session construction performs no
observable action by itself). -/
def uploadToS3 (ext : Collab) (region bucket key filename : String) : Exec (Option String) := do
  emit (.openFile filename)
  match ext.uploadOpen with
  | some e => Exec.pure (some e)
  | none => do
    emit (.s3Upload region bucket key filename)
    Exec.pure ext.uploadErr

/-- The fixed text printed by `printEnvReference`. -/
def envReferenceText : String :=
  "\nMYCLINIC_DB_USER -- database user\nMYCLINIC_DB_PASS -- database password\nMYCLINIC_BACKUP_DIR -- directory to store plain SQL backup file\nMYCLINIC_BACKUP_ENCRYPTED_DIR -- directory to store encrypted SQL backup file\nMYCLINIC_BACKUP_ENCRYPTION_KEY -- path to encryption key file\nMYCLINIC_BACKUP_S3_REGION -- S3 region\nMYCLINIC_BACKUP_S3_BUCKET -- S3 bucket\n"

/-- Command-line flags: `-dry-run` and `-env`. -/
structure Flags where
  dryRun : Bool
  printEnv : Bool
deriving DecidableEq

/-- The body of `main` after `flag.Parse()`, with `time.Now()` passed in
as `now`. -/
def mainExec (flags : Flags) (env : Env) (ext : Collab) (now : DateTime) : Exec Unit := do
  if flags.printEnv then
    emit (.stdout envReferenceText)
  else do
    let backupDir ← getenv env backupDirEnvVar
    let backupFile := createBackupFilePath backupDir now
    if !flags.dryRun then
      let err ← dumpMysql env ext backupFile
      match err with
      | some e => do
        emit (.stderr ("mysql backup failed: " ++ e ++ "\n"))
        exitProc 1
      | none => Exec.pure ()
    emit (.stdout ("database backed up to " ++ backupFile ++ "\n"))
    let encryptedBackupDir ← getenv env encryptedBackupDirEnvVar
    let encSrc := createBackupFilePath encryptedBackupDir now
    let encryptedFile := encryptedBackupResult encSrc
    if !flags.dryRun then do
      let keyRes ← getEncryptionKey env ext
      match keyRes with
      | .error e => panicProc e
      | .ok key => do
        let err ← encryptBackupFile ext encryptedFile key backupFile
        match err with
        | some e => panicProc e
        | none => Exec.pure ()
    emit (.stdout ("encrypted file: " ++ encryptedFile ++ "\n"))
    let region ← getenv env s3BackupRegionEnvVar
    emit (.stdout ("region: " ++ region ++ "\n"))
    let bucket ← getenv env s3BackupBucketEnvVar
    let key := createS3Key encryptedFile
    emit (.stdout ("S3 key: " ++ key ++ "\n"))
    if !flags.dryRun then
      let err ← uploadToS3 ext region bucket key encryptedFile
      match err with
      | some e => do
        emit (.stderr ("failed to upload to S3: " ++ e ++ "\n"))
        exitProc 1
      | none => Exec.pure ()
    else Exec.pure ()

/-- One full invocation: the emitted events in order and the process
outcome. -/
def mainRun (flags : Flags) (env : Env) (ext : Collab) (now : DateTime) : List Event × Outcome :=
  match mainExec flags env ext now with
  | (es, .ok _) => (es, .completed)
  | (es, .error o) => (es, o)

/-! ## Segment algebra for `Clean` -/

/-- A path segment that `cleanStep` simply pushes: non-empty, not `"."`,
not `".."`, and free of separators. -/
def GoodSeg (s : List Char) : Prop :=
  s ≠ [] ∧ s ≠ ['.'] ∧ s ≠ dotdot ∧ ∀ c ∈ s, c ≠ '/'

theorem goodSeg_of_long (s : List Char) (h3 : 3 ≤ s.length) (hs : ∀ c ∈ s, c ≠ '/') :
    GoodSeg s := by
  refine ⟨?_, ?_, ?_, hs⟩ <;> intro h <;> subst h <;> simp [dotdot] at h3

theorem splitSegs_cons_slash (cs : List Char) : splitSegs ('/' :: cs) = [] :: splitSegs cs := by
  simp [splitSegs]

theorem splitSegs_ne_nil (p : List Char) : splitSegs p ≠ [] := by
  induction p with
  | nil => simp [splitSegs]
  | cons c cs ih =>
    by_cases h : c = '/'
    · simp [splitSegs, h]
    · simp only [splitSegs, if_neg h]
      rcases hs : splitSegs cs with _ | ⟨s, rest⟩
      · simp
      · simp

theorem splitSegs_cons_of_ne (c : Char) (cs s : List Char) (rest : List (List Char))
    (h : c ≠ '/') (hs : splitSegs cs = s :: rest) :
    splitSegs (c :: cs) = (c :: s) :: rest := by
  simp [splitSegs, h, hs]

theorem splitSegs_append (x y : List Char) :
    splitSegs (x ++ '/' :: y) = splitSegs x ++ splitSegs y := by
  induction x with
  | nil => simp [splitSegs]
  | cons c cs ih =>
    by_cases h : c = '/'
    · simp [splitSegs, h, ih]
    · rcases hs : splitSegs cs with _ | ⟨s, rest⟩
      · exact absurd hs (splitSegs_ne_nil cs)
      · have h2 : splitSegs (cs ++ '/' :: y) = s :: (rest ++ splitSegs y) := by
          rw [ih, hs]; rfl
        rw [show (c :: cs) ++ '/' :: y = c :: (cs ++ '/' :: y) from rfl,
          splitSegs_cons_of_ne c _ _ _ h h2, splitSegs_cons_of_ne c _ _ _ h hs]
        rfl

theorem splitSegs_noSlash (s : List Char) (hs : ∀ c ∈ s, c ≠ '/') : splitSegs s = [s] := by
  induction s with
  | nil => simp [splitSegs]
  | cons c cs ih =>
    have hc : c ≠ '/' := hs c (by simp)
    have ih' := ih (fun d hd => hs d (by simp [hd]))
    simp [splitSegs, hc, ih']

theorem mem_splitSegs_noSlash (p : List Char) (s : List Char) (h : s ∈ splitSegs p) :
    ∀ c ∈ s, c ≠ '/' := by
  induction p generalizing s with
  | nil => simp [splitSegs] at h; subst h; simp
  | cons c cs ih =>
    by_cases hc : c = '/'
    · simp only [splitSegs, if_pos hc, List.mem_cons] at h
      rcases h with h | h
      · subst h; simp
      · exact ih s h
    · simp only [splitSegs, if_neg hc] at h
      rcases hs : splitSegs cs with _ | ⟨s0, rest⟩
      · exact absurd hs (splitSegs_ne_nil cs)
      · rw [hs, List.mem_cons] at h
        rcases h with h | h
        · subst h
          intro d hd
          rcases List.mem_cons.1 hd with h | h
          · subst h; exact hc
          · exact ih s0 (by rw [hs]; simp) d h
        · exact ih s (by rw [hs]; simp [h])

theorem joinSegs_cons_cons (x y : List Char) (l : List (List Char)) :
    joinSegs (x :: y :: l) = x ++ '/' :: joinSegs (y :: l) := rfl

theorem joinSegs_append_one (xs : List (List Char)) (a : List Char) :
    joinSegs (xs ++ [a]) = if xs = [] then a else joinSegs xs ++ '/' :: a := by
  induction xs with
  | nil => simp [joinSegs]
  | cons x xs ih =>
    rcases xs with _ | ⟨y, ys⟩
    · simp [joinSegs]
    · rw [show x :: (y :: ys) ++ [a] = x :: ((y :: ys) ++ [a]) from rfl,
        show (y :: ys) ++ [a] = y :: (ys ++ [a]) from rfl, joinSegs_cons_cons]
      rw [show (y :: (ys ++ [a])) = (y :: ys) ++ [a] from rfl, ih]
      simp [joinSegs_cons_cons]

theorem joinSegs_append_two (xs : List (List Char)) (a b : List Char) :
    joinSegs (xs ++ [a, b]) =
      if xs = [] then a ++ '/' :: b else joinSegs xs ++ '/' :: (a ++ '/' :: b) := by
  have h : xs ++ [a, b] = (xs ++ [a]) ++ [b] := by simp
  rw [h, joinSegs_append_one (xs ++ [a]) b, joinSegs_append_one xs a]
  rcases xs with _ | ⟨x, xs⟩
  · simp [joinSegs]
  · simp

theorem joinSegs_ne_nil (L : List (List Char)) (hL : L ≠ []) (h : ∀ s ∈ L, s ≠ []) :
    joinSegs L ≠ [] := by
  rcases L with _ | ⟨a, rest⟩
  · exact absurd rfl hL
  · rcases rest with _ | ⟨b, rest⟩
    · exact h a (by simp)
    · have ha : a ≠ [] := h a (by simp)
      rw [joinSegs_cons_cons]
      intro hcon
      rcases List.append_eq_nil.1 hcon with ⟨h1, _⟩
      exact ha h1

theorem splitSegs_joinSegs (L : List (List Char)) (hL : L ≠ [])
    (h : ∀ s ∈ L, ∀ c ∈ s, c ≠ '/') : splitSegs (joinSegs L) = L := by
  induction L with
  | nil => exact absurd rfl hL
  | cons a rest ih =>
    rcases rest with _ | ⟨b, rest⟩
    · exact splitSegs_noSlash a (h a (by simp))
    · rw [joinSegs_cons_cons, splitSegs_append, splitSegs_noSlash a (h a (by simp)),
        ih (by simp) (fun s hs c hc => h s (by simp [hs]) c hc)]
      simp

/-- Unfolding equations for `cleanStep`. -/
theorem cleanStep_skip (r : Bool) (st : List (List Char)) (seg : List Char)
    (h : seg = [] ∨ seg = ['.']) : cleanStep r st seg = st := by
  simp [cleanStep, h]

theorem cleanStep_dd_nil (r : Bool) :
    cleanStep r [] dotdot = if r then [] else [dotdot] := by
  have h1 : ¬(dotdot = [] ∨ dotdot = ['.']) := by decide
  simp [cleanStep, h1]

theorem cleanStep_dd_cons (r : Bool) (t : List Char) (rest : List (List Char)) :
    cleanStep r (t :: rest) dotdot = if t = dotdot then dotdot :: t :: rest else rest := by
  have h1 : ¬(dotdot = [] ∨ dotdot = ['.']) := by decide
  simp [cleanStep, h1]

theorem cleanStep_push (r : Bool) (st : List (List Char)) (s : List Char) (h : GoodSeg s) :
    cleanStep r st s = s :: st := by
  obtain ⟨h1, h2, h3, _⟩ := h
  simp [cleanStep, h1, h2, h3]

/-- Elements of the clean stack are never empty. -/
theorem cleanStack_mem_ne_nil (r : Bool) (segs : List (List Char)) (st : List (List Char))
    (hst : ∀ s ∈ st, s ≠ []) : ∀ s ∈ segs.foldl (cleanStep r) st, s ≠ [] := by
  induction segs generalizing st with
  | nil => simpa using hst
  | cons seg rest ih =>
    refine ih (cleanStep r st seg) ?_
    intro s hs
    by_cases hempty : seg = [] ∨ seg = ['.']
    · rw [cleanStep_skip r st seg hempty] at hs; exact hst s hs
    · by_cases hdd : seg = dotdot
      · subst hdd
        rcases st with _ | ⟨t, rest'⟩
        · rw [cleanStep_dd_nil] at hs
          rcases r with _ | _ <;> simp_all [dotdot]
        · rw [cleanStep_dd_cons] at hs
          by_cases htd : t = dotdot
          · rw [if_pos htd] at hs
            rcases List.mem_cons.1 hs with h | h
            · subst h; simp [dotdot]
            · exact hst s (by simpa using h)
          · rw [if_neg htd] at hs
            exact hst s (by simp [hs])
      · rw [show cleanStep r st seg = seg :: st by simp [cleanStep, hempty, hdd]] at hs
        rcases List.mem_cons.1 hs with h | h
        · subst h; exact fun hc => hempty (Or.inl hc)
        · exact hst s h

/-- How the root flag of the full path relates to the base directory. -/
def rootedB (d : List Char) : Bool :=
  match d with
  | [] => true
  | c :: _ => c = '/'

theorem isRooted_append (d rest : List Char) :
    isRooted (d ++ '/' :: rest) = rootedB d := by
  rcases d with _ | ⟨c, cs⟩ <;> simp [isRooted, rootedB]

/-- The stack that `Clean` computes for the base-directory part. -/
def stackOf (d : List Char) : List (List Char) :=
  cleanStack (rootedB d) (splitSegs d)

/-- Render a clean stack as leading path material (empty, `"/"`,
`"<body>/"` or `"/<body>/"`). -/
def renderB (r : Bool) (st : List (List Char)) : List Char :=
  let body := joinSegs st.reverse
  if r then '/' :: (if body = [] then [] else body ++ ['/'])
  else (if body = [] then [] else body ++ ['/'])

/-- The normalised base-directory material that `Clean` puts in front of
the two appended segments: empty, `"/"`, `"<body>/"` or `"/<body>/"`. -/
def cleanBaseChars (d : List Char) : List Char := renderB (rootedB d) (stackOf d)

/-- The cleaned base at string level. -/
def cleanBase (d : String) : String := ⟨cleanBaseChars d.data⟩

/-- Cleaning `d ++ "/" ++ s1 ++ "/" ++ s2` for plain segments `s1`, `s2`
is the cleaned base followed by `s1 ++ "/" ++ s2` verbatim. -/
theorem cleanChars_append_two (d s1 s2 : List Char) (h1 : GoodSeg s1) (h2 : GoodSeg s2) :
    cleanChars (d ++ '/' :: (s1 ++ '/' :: s2)) = cleanBaseChars d ++ (s1 ++ '/' :: s2) := by
  have hroot : isRooted (d ++ '/' :: (s1 ++ '/' :: s2)) = rootedB d := isRooted_append ..
  have hsegs : splitSegs (d ++ '/' :: (s1 ++ '/' :: s2)) = splitSegs d ++ [s1, s2] := by
    rw [splitSegs_append, splitSegs_append, splitSegs_noSlash s1 h1.2.2.2,
      splitSegs_noSlash s2 h2.2.2.2]
    rfl
  have hstack : cleanStack (rootedB d) (splitSegs d ++ [s1, s2]) = s2 :: s1 :: stackOf d := by
    unfold cleanStack
    rw [List.foldl_append]
    show List.foldl (cleanStep (rootedB d)) (stackOf d) [s1, s2] = _
    simp only [List.foldl_cons, List.foldl_nil]
    rw [cleanStep_push _ _ _ h1, cleanStep_push _ _ _ h2]
  have hne : ∀ s ∈ stackOf d, s ≠ [] := cleanStack_mem_ne_nil _ _ [] (by simp)
  simp only [cleanChars, cleanBaseChars, renderB]
  rw [hroot, hsegs, hstack]
  have hrev : (s2 :: s1 :: stackOf d).reverse = (stackOf d).reverse ++ [s1, s2] := by simp
  rw [hrev, joinSegs_append_two]
  rcases hd : (stackOf d).reverse with _ | ⟨x, xs⟩
  · cases hR : rootedB d <;> simp [joinSegs]
  · have hjoin_ne : joinSegs (x :: xs) ≠ [] := by
      refine joinSegs_ne_nil _ (by simp) ?_
      intro s hs
      refine hne s ?_
      rw [← List.mem_reverse, hd]
      exact hs
    cases hR : rootedB d <;> simp [hjoin_ne]

/-! ## The clean stack is well-formed, and `Clean` recovers it

`ValidStack` is the invariant of the stack built by `cleanStep`: good
segments on top of a run of `".."` markers, the latter only in relative
paths.  It lets the second `Clean` inside `createS3Key` (on the parent
directory) recover the stack unchanged. -/

def ValidStack (rooted : Bool) (st : List (List Char)) : Prop :=
  ∃ ns k, st = ns ++ List.replicate k dotdot ∧ (∀ s ∈ ns, GoodSeg s) ∧ (rooted = true → k = 0)

theorem validStack_nil (r : Bool) : ValidStack r [] :=
  ⟨[], 0, rfl, by simp, fun _ => rfl⟩

theorem validStack_step (r : Bool) (st : List (List Char)) (seg : List Char)
    (h : ValidStack r st) (hs : ∀ c ∈ seg, c ≠ '/') : ValidStack r (cleanStep r st seg) := by
  obtain ⟨ns, k, hst, hns, hk⟩ := h
  by_cases hempty : seg = [] ∨ seg = ['.']
  · rw [cleanStep_skip r st seg hempty]; exact ⟨ns, k, hst, hns, hk⟩
  · by_cases hdd : seg = dotdot
    · subst hdd
      rcases hns' : ns with _ | ⟨t, ns'⟩
      · subst hns'
        simp only [List.nil_append] at hst
        rcases k with _ | k
        · subst hst
          rw [show (List.replicate 0 dotdot : List (List Char)) = [] from rfl,
            cleanStep_dd_nil]
          cases hr : r
          · exact ⟨[], 1, by simp, by simp, by simp⟩
          · exact ⟨[], 0, by simp, by simp, fun _ => rfl⟩
        · have hr : r = false := by
            cases r
            · rfl
            · exact absurd (hk rfl) (Nat.succ_ne_zero k)
          subst hst
          rw [show List.replicate (k + 1) dotdot = dotdot :: List.replicate k dotdot from rfl,
            cleanStep_dd_cons, if_pos rfl]
          exact ⟨[], k + 2, by simp [List.replicate_succ], by simp, by simp [hr]⟩
      · subst hns'
        have htd : t ≠ dotdot := fun hcon => (hns t (by simp)).2.2.1 hcon
        rw [hst, show (t :: ns') ++ List.replicate k dotdot =
          t :: (ns' ++ List.replicate k dotdot) from rfl, cleanStep_dd_cons, if_neg htd]
        exact ⟨ns', k, rfl, fun s hsm => hns s (by simp [hsm]), hk⟩
    · have hgood : GoodSeg seg :=
        ⟨fun hc => hempty (Or.inl hc), fun hc => hempty (Or.inr hc), hdd, hs⟩
      rw [cleanStep_push r st seg hgood, hst]
      exact ⟨seg :: ns, k, rfl, by
        intro s hsm
        rcases List.mem_cons.1 hsm with h | h
        · subst h; exact hgood
        · exact hns s h, hk⟩

theorem validStack_foldl (r : Bool) (segs : List (List Char)) (st : List (List Char))
    (h : ValidStack r st) (hs : ∀ s ∈ segs, ∀ c ∈ s, c ≠ '/') :
    ValidStack r (segs.foldl (cleanStep r) st) := by
  induction segs generalizing st with
  | nil => exact h
  | cons seg rest ih =>
    exact ih (cleanStep r st seg) (validStack_step r st seg h (hs seg (by simp)))
      (fun s hsm c hc => hs s (by simp [hsm]) c hc)

theorem validStack_stackOf (d : List Char) : ValidStack (rootedB d) (stackOf d) :=
  validStack_foldl _ _ [] (validStack_nil _) (mem_splitSegs_noSlash d)

theorem validStack_mem_noSlash (r : Bool) (st : List (List Char)) (h : ValidStack r st) :
    ∀ s ∈ st, (s ≠ [] ∧ ∀ c ∈ s, c ≠ '/') := by
  obtain ⟨ns, k, hst, hns, _⟩ := h
  intro s hsm
  rw [hst] at hsm
  rcases List.mem_append.1 hsm with h | h
  · exact ⟨(hns s h).1, (hns s h).2.2.2⟩
  · rw [List.eq_of_mem_replicate h]
    exact ⟨by simp [dotdot], by decide⟩

/-- Re-processing the rendered stack recovers the stack: first the `".."`
run, then the good segments. -/
theorem foldl_replicate_dd (k j : Nat) :
    List.foldl (cleanStep false) (List.replicate j dotdot) (List.replicate k dotdot) =
      List.replicate (j + k) dotdot := by
  induction k generalizing j with
  | zero => simp
  | succ k ih =>
    rw [List.replicate_succ, List.foldl_cons]
    have hstep : cleanStep false (List.replicate j dotdot) dotdot =
        List.replicate (j + 1) dotdot := by
      rcases j with _ | j
      · rw [show List.replicate 0 dotdot = [] from rfl, cleanStep_dd_nil]; rfl
      · rw [show List.replicate (j + 1) dotdot = dotdot :: List.replicate j dotdot from rfl,
          cleanStep_dd_cons, if_pos rfl]
        simp [List.replicate_succ]
    rw [hstep, ih (j + 1)]
    congr 1
    omega

theorem foldl_push_reverse (r : Bool) (ns : List (List Char)) (hns : ∀ s ∈ ns, GoodSeg s)
    (st : List (List Char)) :
    List.foldl (cleanStep r) st ns.reverse = ns ++ st := by
  induction ns generalizing st with
  | nil => simp
  | cons a ns' ih =>
    rw [List.reverse_cons, List.foldl_append]
    rw [ih (fun s hsm => hns s (by simp [hsm])) st]
    simp only [List.foldl_cons, List.foldl_nil]
    rw [cleanStep_push _ _ _ (hns a (by simp))]
    simp

theorem foldl_recover (r : Bool) (st : List (List Char)) (h : ValidStack r st) :
    List.foldl (cleanStep r) [] st.reverse = st := by
  obtain ⟨ns, k, hst, hns, hk⟩ := h
  subst hst
  rw [List.reverse_append, List.reverse_replicate, List.foldl_append]
  have hfirst : List.foldl (cleanStep r) [] (List.replicate k dotdot) =
      List.replicate k dotdot := by
    rcases k with _ | k
    · simp
    · have hr : r = false := by
        cases r
        · rfl
        · exact absurd (hk rfl) (Nat.succ_ne_zero k)
      subst hr
      simpa using foldl_replicate_dd (k + 1) 0
  rw [hfirst, foldl_push_reverse r ns hns]

/-! ## `Split`, `takeWhile` helpers and the parent-directory `Clean` -/

theorem takeWhile_all {α : Type} (p : α → Bool) (l : List α) (h : ∀ c ∈ l, p c = true) :
    l.takeWhile p = l ∧ l.dropWhile p = [] := by
  induction l with
  | nil => simp
  | cons a t ih =>
    have ha : p a = true := h a (by simp)
    have iht := ih (fun c hc => h c (by simp [hc]))
    simp [List.takeWhile, List.dropWhile, ha, iht.1, iht.2]

theorem takeWhile_append_stop {α : Type} (p : α → Bool) (a : List α) (b : α) (t : List α)
    (ha : ∀ c ∈ a, p c = true) (hb : p b = false) :
    ((a ++ b :: t).takeWhile p = a) ∧ ((a ++ b :: t).dropWhile p = b :: t) := by
  induction a with
  | nil => simp [List.takeWhile, List.dropWhile, hb]
  | cons x xs ih =>
    have hx : p x = true := ha x (by simp)
    have ihx := ih (fun c hc => ha c (by simp [hc]))
    simp [List.takeWhile, List.dropWhile, hx, ihx.1, ihx.2]

theorem goSplit_append (x s : List Char) (hs : ∀ c ∈ s, c ≠ '/') :
    goSplit ⟨x ++ '/' :: s⟩ = (⟨x ++ ['/']⟩, ⟨s⟩) := by
  have hrev : (x ++ '/' :: s).reverse = s.reverse ++ '/' :: x.reverse := by simp
  have ha : ∀ c ∈ s.reverse, (fun c => decide (c ≠ '/')) c = true := by
    intro c hc
    simpa using hs c (List.mem_reverse.1 hc)
  have hb : (fun c => decide (c ≠ '/')) '/' = false := by decide
  have h := takeWhile_append_stop (fun c => decide (c ≠ '/')) s.reverse '/' x.reverse ha hb
  simp only [goSplit]
  rw [hrev, h.1, h.2]
  simp

theorem goSplit_noSlash (s : List Char) (hs : ∀ c ∈ s, c ≠ '/') :
    goSplit ⟨s⟩ = (⟨[]⟩, ⟨s⟩) := by
  have ha : ∀ c ∈ s.reverse, (fun c => decide (c ≠ '/')) c = true := by
    intro c hc
    simpa using hs c (List.mem_reverse.1 hc)
  have h := takeWhile_all (fun c => decide (c ≠ '/')) s.reverse ha
  simp only [goSplit]
  rw [h.1, h.2]
  simp

theorem isRooted_append_ne (x y : List Char) (hx : x ≠ []) :
    isRooted (x ++ y) = isRooted x := by
  rcases x with _ | ⟨c, cs⟩
  · exact absurd rfl hx
  · rfl

theorem isRooted_goodSeg (s : List Char) (h : GoodSeg s) : isRooted s = false := by
  rcases hs : s with _ | ⟨c, cs⟩
  · exact absurd hs h.1
  · have : c ≠ '/' := h.2.2.2 c (by rw [hs]; simp)
    simp [isRooted, this]

theorem isRooted_joinSegs (L : List (List Char)) (hL : L ≠ [])
    (h : ∀ s ∈ L, s ≠ [] ∧ ∀ c ∈ s, c ≠ '/') : isRooted (joinSegs L) = false := by
  rcases L with _ | ⟨a, rest⟩
  · exact absurd rfl hL
  · have ha := h a (by simp)
    rcases hsa : a with _ | ⟨c, cs⟩
    · exact absurd hsa ha.1
    · have hc : c ≠ '/' := ha.2 c (by rw [hsa]; simp)
      rcases rest with _ | ⟨b, rest⟩
      · simpa [joinSegs, isRooted] using hc
      · rw [joinSegs_cons_cons]
        simpa [isRooted] using hc

/-- Evaluating `renderB` on an empty stack. -/
theorem renderB_nil (r : Bool) : renderB r [] = if r then ['/'] else [] := by
  cases r <;> simp [renderB, joinSegs]

/-- Evaluating `renderB` on a non-empty stack. -/
theorem renderB_cons (r : Bool) (st : List (List Char)) (x : List Char) (xs : List (List Char))
    (hrev : st.reverse = x :: xs) (hjoin_ne : joinSegs (x :: xs) ≠ []) :
    renderB r st = if r then '/' :: (joinSegs (x :: xs) ++ ['/'])
      else joinSegs (x :: xs) ++ ['/'] := by
  cases r <;> simp [renderB, hrev, hjoin_ne]

/-- Appending a good segment to a rendered stack and cleaning the result
(with a trailing `"/."`, as `createS3Key` does) recovers the rendered
stack followed by that segment. -/
theorem cleanChars_render (r : Bool) (st : List (List Char)) (hv : ValidStack r st)
    (s1 : List Char) (h1 : GoodSeg s1) (seg0 : List Char) (hseg0 : seg0 = [] ∨ seg0 = ['.']) :
    cleanChars ((renderB r st ++ s1) ++ '/' :: seg0) = renderB r st ++ s1 := by
  have hsplit0 : splitSegs seg0 = [seg0] := by
    rcases hseg0 with h | h <;> subst h <;> rfl
  have hmem := validStack_mem_noSlash r st hv
  have hmemrev : ∀ s ∈ st.reverse, s ≠ [] ∧ ∀ c ∈ s, c ≠ '/' :=
    fun s hs => hmem s (List.mem_reverse.1 hs)
  have hXne : renderB r st ++ s1 ≠ [] := by
    intro hcon
    exact h1.1 (List.append_eq_nil.1 hcon).2
  have hrootX : isRooted ((renderB r st ++ s1) ++ '/' :: seg0) = r := by
    rw [isRooted_append_ne _ _ hXne]
    rcases hrev : st.reverse with _ | ⟨x, xs⟩
    · have hst0 : st = [] := by simpa using congrArg List.reverse hrev
      subst hst0
      rw [renderB_nil]
      cases r
      · simpa using isRooted_goodSeg s1 h1
      · simp [isRooted]
    · have hjoin_ne : joinSegs (x :: xs) ≠ [] :=
        joinSegs_ne_nil _ (by simp) (fun s hs => (hmemrev s (hrev ▸ hs)).1)
      have hjr : isRooted (joinSegs (x :: xs)) = false :=
        isRooted_joinSegs _ (by simp) (fun s hs => hmemrev s (hrev ▸ hs))
      rw [renderB_cons r st x xs hrev hjoin_ne]
      cases r
      · rw [if_neg (by simp), show (joinSegs (x :: xs) ++ ['/']) ++ s1 =
          joinSegs (x :: xs) ++ ('/' :: s1) by simp,
          isRooted_append_ne _ _ hjoin_ne, hjr]
      · simp [isRooted]
  have hstack : cleanStack r (splitSegs ((renderB r st ++ s1) ++ '/' :: seg0)) = s1 :: st := by
    rw [splitSegs_append, hsplit0]
    unfold cleanStack
    rw [List.foldl_append]
    have hcore : List.foldl (cleanStep r) [] (splitSegs (renderB r st ++ s1)) = s1 :: st := by
      rcases hrev : st.reverse with _ | ⟨x, xs⟩
      · have hst0 : st = [] := by simpa using congrArg List.reverse hrev
        subst hst0
        rw [renderB_nil]
        cases r
        · rw [if_neg (by simp), List.nil_append, splitSegs_noSlash s1 h1.2.2.2]
          simp only [List.foldl_cons, List.foldl_nil]
          rw [cleanStep_push _ _ _ h1]
        · rw [if_pos rfl, show (['/'] : List Char) ++ s1 = '/' :: s1 from rfl,
            splitSegs_cons_slash, splitSegs_noSlash s1 h1.2.2.2]
          simp only [List.foldl_cons, List.foldl_nil]
          rw [cleanStep_skip _ _ _ (Or.inl rfl), cleanStep_push _ _ _ h1]
      · have hjoin_ne : joinSegs (x :: xs) ≠ [] :=
          joinSegs_ne_nil _ (by simp) (fun s hs => (hmemrev s (hrev ▸ hs)).1)
        have hsplitj : splitSegs (joinSegs (x :: xs)) = x :: xs :=
          splitSegs_joinSegs _ (by simp) (fun s hs => (hmemrev s (hrev ▸ hs)).2)
        have hrec : List.foldl (cleanStep r) [] (x :: xs) = st := by
          rw [← hrev]
          exact foldl_recover r st hv
        rw [renderB_cons r st x xs hrev hjoin_ne]
        cases r
        · rw [if_neg (by simp), show (joinSegs (x :: xs) ++ ['/']) ++ s1 =
            joinSegs (x :: xs) ++ '/' :: s1 by simp, splitSegs_append, hsplitj,
            splitSegs_noSlash s1 h1.2.2.2, List.foldl_append, hrec]
          simp only [List.foldl_cons, List.foldl_nil]
          rw [cleanStep_push _ _ _ h1]
        · rw [if_pos rfl, show ('/' :: (joinSegs (x :: xs) ++ ['/'])) ++ s1 =
            '/' :: (joinSegs (x :: xs) ++ '/' :: s1) by simp, splitSegs_cons_slash,
            splitSegs_append, hsplitj, splitSegs_noSlash s1 h1.2.2.2]
          rw [List.foldl_cons, cleanStep_skip _ _ _ (Or.inl rfl), List.foldl_append, hrec]
          simp only [List.foldl_cons, List.foldl_nil]
          rw [cleanStep_push _ _ _ h1]
    rw [hcore]
    simp only [List.foldl_cons, List.foldl_nil]
    rw [cleanStep_skip _ _ _ hseg0]
  simp only [cleanChars]
  rw [hrootX, hstack]
  have hrevs : (s1 :: st).reverse = st.reverse ++ [s1] := by simp
  rw [hrevs, joinSegs_append_one]
  rcases hrev : st.reverse with _ | ⟨x, xs⟩
  · have hst0 : st = [] := by simpa using congrArg List.reverse hrev
    subst hst0
    rw [renderB_nil]
    cases r
    · simp [h1.1]
    · simp [h1.1]
  · have hjoin_ne : joinSegs (x :: xs) ≠ [] :=
      joinSegs_ne_nil _ (by simp) (fun s hs => (hmemrev s (hrev ▸ hs)).1)
    rw [renderB_cons r st x xs hrev hjoin_ne]
    cases r
    · simp [hjoin_ne]
    · simp [hjoin_ne]

/-- Splitting a rendered stack followed by a good segment cuts exactly at
that segment. -/
theorem goSplit_render (r : Bool) (st : List (List Char)) (hv : ValidStack r st)
    (s1 : List Char) (h1 : GoodSeg s1) :
    goSplit ⟨renderB r st ++ s1⟩ = (⟨renderB r st⟩, ⟨s1⟩) := by
  have hmem := validStack_mem_noSlash r st hv
  have hmemrev : ∀ s ∈ st.reverse, s ≠ [] ∧ ∀ c ∈ s, c ≠ '/' :=
    fun s hs => hmem s (List.mem_reverse.1 hs)
  rcases hrev : st.reverse with _ | ⟨x, xs⟩
  · have hst0 : st = [] := by simpa using congrArg List.reverse hrev
    subst hst0
    rw [renderB_nil]
    cases r
    · rw [if_neg (by simp), List.nil_append]
      simpa using goSplit_noSlash s1 h1.2.2.2
    · rw [if_pos rfl, show (['/'] : List Char) ++ s1 = [] ++ '/' :: s1 from rfl]
      simpa using goSplit_append [] s1 h1.2.2.2
  · have hjoin_ne : joinSegs (x :: xs) ≠ [] :=
      joinSegs_ne_nil _ (by simp) (fun s hs => (hmemrev s (hrev ▸ hs)).1)
    rw [renderB_cons r st x xs hrev hjoin_ne]
    cases r
    · rw [if_neg (by simp), show (joinSegs (x :: xs) ++ ['/']) ++ s1 =
        joinSegs (x :: xs) ++ '/' :: s1 by simp]
      simpa using goSplit_append (joinSegs (x :: xs)) s1 h1.2.2.2
    · rw [if_pos rfl]
      have h := goSplit_append ('/' :: joinSegs (x :: xs)) s1 h1.2.2.2
      simpa using h

/-! ## Character facts about the formatted timestamp -/

theorem digitChar_isDigit (d : Nat) : (digitChar d).isDigit = true := by
  have h : ∀ k < 10, (Char.ofNat (48 + k)).isDigit = true := by decide
  exact h (d % 10) (Nat.mod_lt _ (by norm_num))

theorem decDigitsAux_digits (f n : Nat) : ∀ c ∈ decDigitsAux f n, c.isDigit = true := by
  induction f generalizing n with
  | zero => simp [decDigitsAux]
  | succ f ih =>
    intro c hc
    unfold decDigitsAux at hc
    by_cases h : n < 10
    · rw [if_pos h] at hc
      simp at hc
      subst hc
      exact digitChar_isDigit n
    · rw [if_neg h] at hc
      rcases List.mem_append.1 hc with h1 | h1
      · exact ih (n / 10) c h1
      · simp at h1
        subst h1
        exact digitChar_isDigit (n % 10)

theorem decDigits_digits (n : Nat) : ∀ c ∈ decDigits n, c.isDigit = true :=
  decDigitsAux_digits (n + 1) n

theorem decDigitsAux_ne_nil (f n : Nat) (hf : 0 < f) : decDigitsAux f n ≠ [] := by
  rcases f with _ | f
  · omega
  · unfold decDigitsAux
    by_cases h : n < 10
    · simp [h]
    · simp [h]

theorem decDigits_ne_nil (n : Nat) : decDigits n ≠ [] :=
  decDigitsAux_ne_nil (n + 1) n (by omega)

theorem fmtInt_digits (w n : Nat) : ∀ c ∈ fmtInt w n, c.isDigit = true := by
  intro c hc
  rcases List.mem_append.1 hc with h | h
  · rw [List.eq_of_mem_replicate h]
    decide
  · exact decDigits_digits n c h

theorem fmtInt_ne_nil (w n : Nat) : fmtInt w n ≠ [] := by
  intro h
  exact decDigits_ne_nil n (List.append_eq_nil.1 h).2

theorem fmtInt_length (w n : Nat) : w ≤ (fmtInt w n).length := by
  unfold fmtInt
  rw [List.length_append, List.length_replicate]
  omega

theorem fmtInt_getLast_digit (w n : Nat) :
    ∃ c, (fmtInt w n).getLast? = some c ∧ c.isDigit = true := by
  have hne := decDigits_ne_nil n
  refine ⟨(decDigits n).getLast hne, ?_, ?_⟩
  · unfold fmtInt
    rw [List.getLast?_append_of_ne_nil _ hne]
    exact List.getLast?_eq_getLast _ hne
  · exact decDigits_digits n _ (List.getLast_mem hne)

theorem digit_ne_slash {c : Char} (h : c.isDigit = true) : c ≠ '/' := by
  intro hc
  subst hc
  exact absurd h (by decide)

theorem digit_ne_newline {c : Char} (h : c.isDigit = true) : c ≠ '\n' := by
  intro hc
  subst hc
  exact absurd h (by decide)

theorem digit_isWordChar {c : Char} (h : c.isDigit = true) : isWordChar c = true := by
  simp [isWordChar, Char.isAlphanum, h]

theorem stampPart_digits (t : DateTime) : ∀ c ∈ stampPart t, c.isDigit = true := by
  intro c hc
  unfold stampPart at hc
  simp only [List.append_assoc, List.mem_append] at hc
  rcases hc with h | h | h | h | h <;> exact fmtInt_digits _ _ c h

theorem stampPart_ne_nil (t : DateTime) : stampPart t ≠ [] := by
  unfold stampPart
  intro h
  exact fmtInt_ne_nil 4 t.year (List.append_eq_nil.1 (List.append_eq_nil.1
    (List.append_eq_nil.1 (List.append_eq_nil.1 h).1).1).1).1

theorem dirPart_goodSeg (t : DateTime) : GoodSeg (dirPart t).data := by
  refine goodSeg_of_long _ ?_ ?_
  · show 3 ≤ (fmtInt 4 t.year ++ '-' :: fmtInt 2 t.month).length
    rw [List.length_append]
    have := fmtInt_length 4 t.year
    omega
  · intro c hc
    rcases List.mem_append.1 hc with h | h
    · exact digit_ne_slash (fmtInt_digits _ _ c h)
    · rcases List.mem_cons.1 h with h | h
      · subst h; decide
      · exact digit_ne_slash (fmtInt_digits _ _ c h)

/-- The characters of the encrypted artifact's file name. -/
def encName (t : DateTime) : List Char :=
  'd' :: 'u' :: 'm' :: 'p' :: '-' :: stampPart t ++ ['-', 's', 'q', 'l', '.', 'c', 'f']

theorem filePart_goodSeg (t : DateTime) : GoodSeg (filePart t).data := by
  refine goodSeg_of_long _ ?_ ?_
  · show 3 ≤ ('d' :: 'u' :: 'm' :: 'p' :: '-' :: (stampPart t ++ ['.', 's', 'q', 'l'])).length
    simp
  · intro c hc
    show c ≠ '/'
    have hc' : c ∈ ('d' :: 'u' :: 'm' :: 'p' :: '-' :: (stampPart t ++ ['.', 's', 'q', 'l'])) :=
      hc
    simp only [List.mem_cons, List.mem_append] at hc'
    rcases hc' with h | h | h | h | h | h | h
    · subst h; decide
    · subst h; decide
    · subst h; decide
    · subst h; decide
    · subst h; decide
    · exact digit_ne_slash (stampPart_digits t c h)
    · rcases h with h | h | h | h | h <;> first | (subst h; decide) | simp at h

theorem encName_goodSeg (t : DateTime) : GoodSeg (encName t) := by
  refine goodSeg_of_long _ ?_ ?_
  · show 3 ≤ ('d' :: 'u' :: 'm' :: 'p' :: '-' ::
      (stampPart t ++ ['-', 's', 'q', 'l', '.', 'c', 'f'])).length
    simp
  · intro c hc
    have hc' : c ∈ ('d' :: 'u' :: 'm' :: 'p' :: '-' ::
        (stampPart t ++ ['-', 's', 'q', 'l', '.', 'c', 'f'])) := hc
    simp only [List.mem_cons, List.mem_append] at hc'
    rcases hc' with h | h | h | h | h | h | h
    · subst h; decide
    · subst h; decide
    · subst h; decide
    · subst h; decide
    · subst h; decide
    · exact digit_ne_slash (stampPart_digits t c h)
    · rcases h with h | h | h | h | h | h | h | h <;> first | (subst h; decide) | simp at h

/-! ## The suffix rewrite, proved -/

theorem encChars_rewrite (x e : List Char) (hx : x ≠ [])
    (hlast : ∀ c, x.getLast? = some c → c ≠ '\n')
    (he : e ≠ []) (hw : ∀ c ∈ e, isWordChar c = true) :
    encChars (x ++ '.' :: e) = x ++ '-' :: (e ++ ['.', 'c', 'f']) := by
  have hrev : (x ++ '.' :: e).reverse = e.reverse ++ '.' :: x.reverse := by simp
  have hdot : isWordChar '.' = false := by decide
  have ha : ∀ c ∈ e.reverse, isWordChar c = true := fun c hc => hw c (List.mem_reverse.1 hc)
  have h := takeWhile_append_stop isWordChar e.reverse '.' x.reverse ha hdot
  rcases hxr : x.reverse with _ | ⟨c, cs⟩
  · exact absurd (by simpa using congrArg List.reverse hxr) hx
  · have hc : c ≠ '\n' := by
      refine hlast c ?_
      rw [← List.head?_reverse, hxr]
      rfl
    have hseg_ne : List.takeWhile (fun c => decide (c ≠ '\n')) x.reverse ≠ [] := by
      rw [hxr, List.takeWhile_cons]
      simp [hc]
    have hext_ne : e.reverse ≠ [] := by simpa using he
    simp only [encChars]
    rw [hrev, h.1, h.2]
    have hid : (List.dropWhile (fun c => decide (c ≠ '\n')) x.reverse).reverse ++
        (List.takeWhile (fun c => decide (c ≠ '\n')) x.reverse).reverse = x := by
      rw [← List.reverse_append, List.takeWhile_append_dropWhile, List.reverse_reverse]
    simp only [if_neg (show ¬(e.reverse = [] ∨
      List.takeWhile (fun c => decide (c ≠ '\n')) x.reverse = []) from
      fun hcon => hcon.elim hext_ne hseg_ne)]
    rw [show ((List.dropWhile (fun c => decide (c ≠ '\n')) x.reverse).reverse ++
        (List.takeWhile (fun c => decide (c ≠ '\n')) x.reverse).reverse ++
        '-' :: e.reverse.reverse ++ ['.', 'c', 'f'] : List Char) =
      ((List.dropWhile (fun c => decide (c ≠ '\n')) x.reverse).reverse ++
        (List.takeWhile (fun c => decide (c ≠ '\n')) x.reverse).reverse) ++
        ('-' :: e.reverse.reverse ++ ['.', 'c', 'f']) by simp]
    rw [hid]
    simp

/-- A trailing dot-extension group in the sense of the regex: the string
ends in `'.'` followed by a non-empty all-word-character run, with a
non-empty part before the dot. -/
def HasExtGroup (p : List Char) : Prop :=
  ∃ x e, p = x ++ '.' :: e ∧ x ≠ [] ∧ e ≠ [] ∧ ∀ c ∈ e, isWordChar c = true

/-- Without a trailing dot-extension group the rewrite is the identity. -/
theorem encChars_id (p : List Char) (h : ¬ HasExtGroup p) : encChars p = p := by
  simp only [encChars]
  split
  next c0 pre heq =>
    split
    next => rfl
    next hcond =>
      exfalso
      apply h
      push_neg at hcond
      have hpre_ne : pre ≠ [] := by
        intro hp
        subst hp
        exact hcond.2 rfl
      have hsplit : p.reverse = p.reverse.takeWhile isWordChar ++ '.' :: pre := by
        conv_lhs => rw [← List.takeWhile_append_dropWhile (p := isWordChar) (l := p.reverse)]
        rw [heq]
      have h2 : p = pre.reverse ++ '.' :: (p.reverse.takeWhile isWordChar).reverse := by
        have h3 := congrArg List.reverse hsplit
        simpa using h3
      exact ⟨pre.reverse, (p.reverse.takeWhile isWordChar).reverse, h2,
        by simpa using hpre_ne, by simpa using hcond.1,
        fun c hc => List.mem_takeWhile_imp (List.mem_reverse.1 hc)⟩
  next => rfl

/-! ## The derived paths in closed form -/

theorem slash_data : ("/" : String).data = ['/'] := rfl

theorem dot_data : ("." : String).data = ['.'] := rfl

theorem createBackupFilePath_chars (d : String) (t : DateTime) :
    (createBackupFilePath d t).data =
      cleanBaseChars d.data ++ ((dirPart t).data ++ '/' :: (filePart t).data) := by
  show cleanChars (toSlash (d ++ "/" ++ dirPart t ++ "/" ++ filePart t)).data = _
  have hdata : (toSlash (d ++ "/" ++ dirPart t ++ "/" ++ filePart t)).data =
      d.data ++ '/' :: ((dirPart t).data ++ '/' :: (filePart t).data) := by
    simp [toSlash, String.data_append, slash_data]
  rw [hdata, cleanChars_append_two d.data _ _ (dirPart_goodSeg t) (filePart_goodSeg t)]

theorem stampPart_getLast_digit (t : DateTime) :
    ∃ c, (stampPart t).getLast? = some c ∧ c.isDigit = true := by
  obtain ⟨c, hc, hd⟩ := fmtInt_getLast_digit 2 t.minute
  refine ⟨c, ?_, hd⟩
  unfold stampPart
  rw [List.append_assoc, List.append_assoc, List.append_assoc,
    List.getLast?_append_of_ne_nil _ (by
      intro hcon
      exact fmtInt_ne_nil 2 t.minute (by
        rcases List.append_eq_nil.1 hcon with ⟨_, h2⟩
        rcases List.append_eq_nil.1 h2 with ⟨_, h3⟩
        exact (List.append_eq_nil.1 h3).2)),
    List.getLast?_append_of_ne_nil _ (by
      intro hcon
      exact fmtInt_ne_nil 2 t.minute (by
        rcases List.append_eq_nil.1 hcon with ⟨_, h2⟩
        exact (List.append_eq_nil.1 h2).2)),
    List.getLast?_append_of_ne_nil _ (by
      intro hcon
      exact fmtInt_ne_nil 2 t.minute (List.append_eq_nil.1 hcon).2),
    List.getLast?_append_of_ne_nil _ (fmtInt_ne_nil 2 t.minute)]
  exact hc

theorem encPath_chars (d : String) (t : DateTime) :
    (encryptedBackupResult (createBackupFilePath d t)).data =
      cleanBaseChars d.data ++ ((dirPart t).data ++ '/' :: encName t) := by
  show encChars (createBackupFilePath d t).data = _
  rw [createBackupFilePath_chars]
  have hx_eq : cleanBaseChars d.data ++ ((dirPart t).data ++ '/' :: (filePart t).data) =
      (cleanBaseChars d.data ++
        ((dirPart t).data ++ '/' :: ('d' :: 'u' :: 'm' :: 'p' :: '-' :: stampPart t))) ++
        '.' :: ['s', 'q', 'l'] := by
    simp [filePart]
  rw [hx_eq]
  obtain ⟨cl, hcl, hcld⟩ := stampPart_getLast_digit t
  have hlast : ∀ c, (cleanBaseChars d.data ++
      ((dirPart t).data ++ '/' :: ('d' :: 'u' :: 'm' :: 'p' :: '-' :: stampPart t))).getLast? =
      some c → c ≠ '\n' := by
    intro c hc
    rw [List.getLast?_append_of_ne_nil _ (by simp),
      List.getLast?_append_of_ne_nil _ (by simp),
      show ('/' :: 'd' :: 'u' :: 'm' :: 'p' :: '-' :: stampPart t : List Char) =
        ['/', 'd', 'u', 'm', 'p', '-'] ++ stampPart t from rfl,
      List.getLast?_append_of_ne_nil _ (stampPart_ne_nil t), hcl] at hc
    rcases Option.some.inj hc with h
    subst h
    exact digit_ne_newline hcld
  rw [encChars_rewrite _ _ (by simp) hlast (by decide) (by decide)]
  simp [encName]

theorem s3key_str (d : String) (t : DateTime) :
    createS3Key (encryptedBackupResult (createBackupFilePath d t)) =
      ⟨(dirPart t).data ++ '/' :: encName t⟩ := by
  have henc : encryptedBackupResult (createBackupFilePath d t) =
      ⟨(renderB (rootedB d.data) (stackOf d.data) ++ (dirPart t).data) ++ '/' :: encName t⟩ := by
    apply String.ext
    rw [encPath_chars]
    show cleanBaseChars d.data ++ ((dirPart t).data ++ '/' :: encName t) = _
    simp [cleanBaseChars]
  rw [henc]
  simp only [createS3Key]
  rw [goSplit_append _ _ (encName_goodSeg t).2.2.2]
  have hdot : ((⟨(renderB (rootedB d.data) (stackOf d.data) ++ (dirPart t).data) ++ ['/']⟩ :
      String) ++ ".").data =
      (renderB (rootedB d.data) (stackOf d.data) ++ (dirPart t).data) ++ '/' :: ['.'] := by
    rw [String.data_append]
    simp [dot_data]
  have hclean : goClean ((⟨(renderB (rootedB d.data) (stackOf d.data) ++ (dirPart t).data) ++
      ['/']⟩ : String) ++ ".") = ⟨renderB (rootedB d.data) (stackOf d.data) ++ (dirPart t).data⟩ := by
    apply String.ext
    show cleanChars _ = _
    rw [hdot, cleanChars_render (rootedB d.data) (stackOf d.data) (validStack_stackOf d.data)
      (dirPart t).data (dirPart_goodSeg t) ['.'] (Or.inr rfl)]
  rw [hclean, goSplit_render (rootedB d.data) (stackOf d.data) (validStack_stackOf d.data)
    (dirPart t).data (dirPart_goodSeg t)]
  apply String.ext
  rw [String.data_append, String.data_append]
  simp [slash_data]

/-! ## `Base` and `Dir` on the pipeline's paths -/

theorem dropWhile_eq_self {α : Type} (p : α → Bool) (l : List α)
    (h : ∀ a, l.head? = some a → p a = false) : l.dropWhile p = l := by
  rcases l with _ | ⟨a, t⟩
  · rfl
  · rw [List.dropWhile_cons]
    simp [h a rfl]

/-- The encrypted path in rendered form. -/
theorem encPath_str (d : String) (t : DateTime) :
    encryptedBackupResult (createBackupFilePath d t) =
      ⟨(renderB (rootedB d.data) (stackOf d.data) ++ (dirPart t).data) ++ '/' :: encName t⟩ := by
  apply String.ext
  rw [encPath_chars]
  show cleanBaseChars d.data ++ ((dirPart t).data ++ '/' :: encName t) = _
  simp [cleanBaseChars]

theorem goBase_noSlash (s : List Char) (hne : s ≠ []) (hs : ∀ c ∈ s, c ≠ '/') :
    goBase ⟨s⟩ = ⟨s⟩ := by
  have hne' : (⟨s⟩ : String) ≠ "" := fun h => hne (congrArg String.data h)
  simp only [goBase, if_neg hne']
  have hdrop : List.dropWhile (fun c => decide (c = '/')) s.reverse = s.reverse := by
    apply dropWhile_eq_self
    intro a ha
    have ham : a ∈ s := List.mem_reverse.1 (List.mem_of_mem_head? ha)
    simpa using hs a ham
  have htake := takeWhile_all (fun c => decide (c ≠ '/')) s.reverse (by
    intro c hc
    simpa using hs c (List.mem_reverse.1 hc))
  rw [hdrop, if_neg (by simpa using hne), htake.1, List.reverse_reverse]

theorem goBase_append (x s : List Char) (hne : s ≠ []) (hs : ∀ c ∈ s, c ≠ '/') :
    goBase ⟨x ++ '/' :: s⟩ = ⟨s⟩ := by
  have hne' : (⟨x ++ '/' :: s⟩ : String) ≠ "" := by
    intro h
    have h2 := congrArg String.data h
    simp at h2
  simp only [goBase, if_neg hne']
  have hrev : (x ++ '/' :: s).reverse = s.reverse ++ '/' :: x.reverse := by simp
  rcases hsr : s.reverse with _ | ⟨c, cs⟩
  · exact absurd (by simpa using congrArg List.reverse hsr) hne
  · have hc : c ≠ '/' := hs c (List.mem_reverse.1 (by rw [hsr]; simp))
    have hdrop : List.dropWhile (fun c => decide (c = '/')) (s.reverse ++ '/' :: x.reverse) =
        s.reverse ++ '/' :: x.reverse := by
      apply dropWhile_eq_self
      intro a ha
      rw [hsr] at ha
      rcases Option.some.inj ha with h2
      subst h2
      simpa using hc
    have htake := takeWhile_append_stop (fun c => decide (c ≠ '/')) s.reverse '/' x.reverse (by
      intro c2 hc2
      simpa using hs c2 (List.mem_reverse.1 hc2)) (by decide)
    rw [hrev, hdrop, if_neg (by rw [hsr]; simp), htake.1, List.reverse_reverse]

theorem goBase_render (r : Bool) (st : List (List Char)) (hv : ValidStack r st)
    (s1 : List Char) (h1 : GoodSeg s1) :
    goBase ⟨renderB r st ++ s1⟩ = ⟨s1⟩ := by
  have hmem := validStack_mem_noSlash r st hv
  have hmemrev : ∀ s ∈ st.reverse, s ≠ [] ∧ ∀ c ∈ s, c ≠ '/' :=
    fun s hs => hmem s (List.mem_reverse.1 hs)
  rcases hrev : st.reverse with _ | ⟨x, xs⟩
  · have hst0 : st = [] := by simpa using congrArg List.reverse hrev
    subst hst0
    rw [renderB_nil]
    cases r
    · rw [if_neg (by simp), List.nil_append]
      exact goBase_noSlash s1 h1.1 h1.2.2.2
    · rw [if_pos rfl, show (['/'] : List Char) ++ s1 = [] ++ '/' :: s1 from rfl]
      exact goBase_append [] s1 h1.1 h1.2.2.2
  · have hjoin_ne : joinSegs (x :: xs) ≠ [] :=
      joinSegs_ne_nil _ (by simp) (fun s hs => (hmemrev s (hrev ▸ hs)).1)
    rw [renderB_cons r st x xs hrev hjoin_ne]
    cases r
    · rw [if_neg (by simp), show (joinSegs (x :: xs) ++ ['/']) ++ s1 =
        joinSegs (x :: xs) ++ '/' :: s1 by simp]
      exact goBase_append _ s1 h1.1 h1.2.2.2
    · rw [if_pos rfl]
      have h := goBase_append ('/' :: joinSegs (x :: xs)) s1 h1.1 h1.2.2.2
      rw [show ('/' :: joinSegs (x :: xs)) ++ '/' :: s1 =
        ('/' :: (joinSegs (x :: xs) ++ ['/'])) ++ s1 by simp] at h
      exact h

/-- Go `filepath.Dir` of the encrypted path: the cleaned base followed by the
month directory. -/
theorem goDir_enc (d : String) (t : DateTime) :
    goDir (encryptedBackupResult (createBackupFilePath d t)) =
      ⟨renderB (rootedB d.data) (stackOf d.data) ++ (dirPart t).data⟩ := by
  rw [encPath_str]
  unfold goDir
  rw [goSplit_append _ _ (encName_goodSeg t).2.2.2]
  apply String.ext
  show cleanChars ((renderB (rootedB d.data) (stackOf d.data) ++ (dirPart t).data) ++ ['/']) = _
  rw [show ((renderB (rootedB d.data) (stackOf d.data) ++ (dirPart t).data) ++ ['/'] :
      List Char) = (renderB (rootedB d.data) (stackOf d.data) ++ (dirPart t).data) ++
      '/' :: [] from rfl,
    cleanChars_render (rootedB d.data) (stackOf d.data) (validStack_stackOf d.data)
      (dirPart t).data (dirPart_goodSeg t) [] (Or.inl rfl)]

/-! ## Claim theorems: path and key derivation -/

/-- The timestamp block at string level. -/
def stampStr (t : DateTime) : String := ⟨stampPart t⟩

theorem dumpLit_data : ("/dump-" : String).data = ['/', 'd', 'u', 'm', 'p', '-'] := rfl

theorem sqlLit_data : (".sql" : String).data = ['.', 's', 'q', 'l'] := rfl

theorem sqlcfLit_data : ("-sql.cf" : String).data = ['-', 's', 'q', 'l', '.', 'c', 'f'] := rfl

theorem cfLit_data : (".cf" : String).data = ['.', 'c', 'f'] := rfl

theorem dashLit_data : ("-" : String).data = ['-'] := rfl

/-- C3: for timestamp 2024-01-15 09:30 with plain base `/backup` and
encrypted base `/ebackup`, the derived plaintext path, encrypted path and
storage key are exactly the documented values. -/
theorem claim_C3 :
    createBackupFilePath "/backup" ⟨2024, 1, 15, 9, 30⟩ =
      "/backup/2024-01/dump-202401150930.sql" ∧
    encryptedBackupResult (createBackupFilePath "/ebackup" ⟨2024, 1, 15, 9, 30⟩) =
      "/ebackup/2024-01/dump-202401150930-sql.cf" ∧
    createS3Key (encryptedBackupResult (createBackupFilePath "/ebackup" ⟨2024, 1, 15, 9, 30⟩)) =
      "2024-01/dump-202401150930-sql.cf" :=
  ⟨by decide, by decide, by decide⟩

/-- C9: all three artifacts derive from the single captured timestamp:
for any base directories, the plaintext path and the encrypted path share
the same `YYYY-MM` directory component and the same `YYYYMMDDHHMM`
file-name timestamp, differing only in the cleaned base directory and in
the extension rewrite, and the storage key is built from the same two
components. -/
theorem claim_C9 (d1 d2 : String) (t : DateTime) :
    createBackupFilePath d1 t =
      cleanBase d1 ++ dirPart t ++ "/dump-" ++ stampStr t ++ ".sql" ∧
    encryptedBackupResult (createBackupFilePath d2 t) =
      cleanBase d2 ++ dirPart t ++ "/dump-" ++ stampStr t ++ "-sql.cf" ∧
    createS3Key (encryptedBackupResult (createBackupFilePath d2 t)) =
      dirPart t ++ "/dump-" ++ stampStr t ++ "-sql.cf" := by
  refine ⟨?_, ?_, ?_⟩
  · apply String.ext
    rw [createBackupFilePath_chars]
    simp [String.data_append, cleanBase, stampStr, dumpLit_data, sqlLit_data, filePart]
  · apply String.ext
    rw [encPath_chars]
    simp [String.data_append, cleanBase, stampStr, dumpLit_data, sqlcfLit_data, encName]
  · rw [s3key_str]
    apply String.ext
    simp [String.data_append, stampStr, dumpLit_data, sqlcfLit_data, encName]

/-- C10: for Clean-normalised base directories the derived storage key
does not depend on the base directory at all: it is always
`dirPart(T) ++ "/" ++` the rewritten file name. -/
theorem claim_C10 (d1 d2 : String) (t : DateTime)
    (h1 : goClean d1 = d1) (h2 : goClean d2 = d2) :
    createS3Key (encryptedBackupResult (createBackupFilePath d1 t)) =
      dirPart t ++ "/dump-" ++ stampStr t ++ "-sql.cf" ∧
    createS3Key (encryptedBackupResult (createBackupFilePath d1 t)) =
      createS3Key (encryptedBackupResult (createBackupFilePath d2 t)) := by
  constructor
  · rw [s3key_str]
    apply String.ext
    simp [String.data_append, stampStr, dumpLit_data, sqlcfLit_data, encName]
  · rw [s3key_str, s3key_str]

/-- Witness for C10 at concrete Clean-normalised directories. -/
theorem claim_C10_witness :
    goClean "/ebackup" = "/ebackup" ∧ goClean "/var/backup" = "/var/backup" ∧
    createS3Key (encryptedBackupResult (createBackupFilePath "/ebackup" ⟨2024, 1, 15, 9, 30⟩)) =
      createS3Key (encryptedBackupResult
        (createBackupFilePath "/var/backup" ⟨2024, 1, 15, 9, 30⟩)) :=
  ⟨by decide, by decide,
    (claim_C10 "/ebackup" "/var/backup" ⟨2024, 1, 15, 9, 30⟩ (by decide) (by decide)).2⟩

/-- C8: the storage key contains exactly one `/`, its directory component
is the basename of the encrypted file's parent directory, and its file
component is the file's basename — nothing else of the path appears. -/
theorem claim_C8 (d : String) (t : DateTime) :
    (createS3Key (encryptedBackupResult (createBackupFilePath d t))).data.count '/' = 1 ∧
    createS3Key (encryptedBackupResult (createBackupFilePath d t)) =
      goBase (goDir (encryptedBackupResult (createBackupFilePath d t))) ++ "/" ++
        goBase (encryptedBackupResult (createBackupFilePath d t)) := by
  constructor
  · rw [s3key_str]
    show ((dirPart t).data ++ '/' :: encName t).count '/' = 1
    have h1 : (dirPart t).data.count '/' = 0 :=
      List.count_eq_zero.2 (fun hmem => (dirPart_goodSeg t).2.2.2 '/' hmem rfl)
    have h2 : (encName t).count '/' = 0 :=
      List.count_eq_zero.2 (fun hmem => (encName_goodSeg t).2.2.2 '/' hmem rfl)
    simp [List.count_append, h1, h2]
  · rw [s3key_str, goDir_enc,
      goBase_render _ _ (validStack_stackOf d.data) _ (dirPart_goodSeg t), encPath_str,
      goBase_append _ _ (encName_goodSeg t).1 (encName_goodSeg t).2.2.2]
    apply String.ext
    simp [String.data_append, slash_data]

/-! ## Claim theorems: the suffix rewrite (C5) -/

/-- C5 as stated is false: Go's `.` in the pattern ``(.+)(\.(\w+))$`` does
not match a newline, so a path whose character before the final
dot-extension group is a newline is returned unchanged even though it
ends in a dot-extension group. -/
theorem claim_C5_counterexample :
    HasExtGroup ("x\n.sql" : String).data ∧
    encryptedBackupResult "x\n.sql" = "x\n.sql" ∧
    encryptedBackupResult "x\n.sql" ≠ "x\n-sql.cf" := by
  refine ⟨⟨['x', '\n'], ['s', 'q', 'l'], by decide, by decide, by decide, by decide⟩,
    by decide, by decide⟩

/-- C5, amended: the last dot-extension group is folded into the basename
with `-` and `.cf` is appended, provided the character immediately before
that final dot is not a newline; a path with no trailing dot-extension
group is returned unchanged. -/
theorem claim_C5_amended :
    (∀ b e : String, b.data ≠ [] → b.data.getLast? ≠ some '\n' →
      e.data ≠ [] → (∀ c ∈ e.data, isWordChar c = true) →
      encryptedBackupResult (b ++ "." ++ e) = b ++ "-" ++ e ++ ".cf") ∧
    (∀ p : String, ¬ HasExtGroup p.data → encryptedBackupResult p = p) := by
  constructor
  · intro b e hb hlast he hw
    apply String.ext
    show encChars (b ++ "." ++ e).data = _
    have hdata : (b ++ "." ++ e).data = b.data ++ '.' :: e.data := by
      simp [String.data_append, dot_data]
    rw [hdata, encChars_rewrite b.data e.data hb
      (fun c hc hceq => hlast (by rw [hc, hceq])) he hw]
    simp [String.data_append, dashLit_data, cfLit_data]
  · intro p h
    apply String.ext
    exact encChars_id p.data h

/-- Witness for C5 at a concrete path with a trailing extension and at a
concrete path without one. -/
theorem claim_C5_witness :
    encryptedBackupResult ("a" ++ "." ++ "sql") = "a" ++ "-" ++ "sql" ++ ".cf" ∧
    encryptedBackupResult "noext" = "noext" :=
  ⟨claim_C5_amended.1 "a" "sql" (by decide) (by decide) (by decide) (by decide),
    claim_C5_amended.2 "noext" (by
      intro hcon
      obtain ⟨x, e, hxe, hx, he, hwe⟩ := hcon
      have : ('.' : Char) ∈ ("noext" : String).data := by
        rw [hxe]
        simp
      simp at this)⟩

/-! ## Lexical order on paths (C7) -/

/-- Three-way lexicographic comparison of character lists (byte order). -/
def lexCmp : List Char → List Char → Ordering
  | [], [] => .eq
  | [], _ :: _ => .lt
  | _ :: _, [] => .gt
  | x :: xs, y :: ys => if x < y then .lt else if y < x then .gt else lexCmp xs ys

/-- Lexical less-or-equal on strings. -/
def lexLE (a b : String) : Prop := lexCmp a.data b.data ≠ Ordering.gt

instance (a b : String) : Decidable (lexLE a b) := by
  unfold lexLE; infer_instance

/-- Chronological order on timestamps, at minute granularity. -/
def chronoLE (a b : DateTime) : Prop :=
  a.year < b.year ∨ (a.year = b.year ∧ (a.month < b.month ∨ (a.month = b.month ∧
    (a.day < b.day ∨ (a.day = b.day ∧ (a.hour < b.hour ∨ (a.hour = b.hour ∧
      a.minute ≤ b.minute)))))))

instance (a b : DateTime) : Decidable (chronoLE a b) := by
  unfold chronoLE; infer_instance

theorem lexCmp_cons_same (c : Char) (r1 r2 : List Char) :
    lexCmp (c :: r1) (c :: r2) = lexCmp r1 r2 := by
  show (if c < c then Ordering.lt else if c < c then Ordering.gt else lexCmp r1 r2) = _
  rw [if_neg (lt_irrefl c), if_neg (lt_irrefl c)]

theorem lexCmp_append_same (p a b : List Char) :
    lexCmp (p ++ a) (p ++ b) = lexCmp a b := by
  induction p with
  | nil => rfl
  | cons c cs ih => rw [List.cons_append, List.cons_append, lexCmp_cons_same, ih]

/-- Three-way comparison on `Nat`. -/
def natCmp (a b : Nat) : Ordering := if a < b then .lt else if b < a then .gt else .eq

theorem natCmp_self (a : Nat) : natCmp a a = .eq := by simp [natCmp]

theorem natCmp_lt {a b : Nat} (h : a < b) : natCmp a b = .lt := by simp [natCmp, h]

theorem digitChar_mod (n : Nat) : digitChar (n % 10) = digitChar n := by
  unfold digitChar
  congr 1
  omega

/-- Comparing two digit characters is comparing the digits. -/
theorem lexCmp_digit (a b : Nat) (r1 r2 : List Char) :
    lexCmp (digitChar a :: r1) (digitChar b :: r2) =
      (natCmp (a % 10) (b % 10)).then (lexCmp r1 r2) := by
  have h10a : a % 10 < 10 := Nat.mod_lt _ (by norm_num)
  have h10b : b % 10 < 10 := Nat.mod_lt _ (by norm_num)
  have hlt : ∀ i < 10, ∀ j < 10,
      ((Char.ofNat (48 + i) < Char.ofNat (48 + j)) ↔ i < j) := by decide
  show (if digitChar a < digitChar b then Ordering.lt
    else if digitChar b < digitChar a then Ordering.gt else lexCmp r1 r2) = _
  unfold digitChar
  rcases Nat.lt_trichotomy (a % 10) (b % 10) with h | h | h
  · rw [if_pos ((hlt _ h10a _ h10b).2 h), natCmp_lt h]
    rfl
  · rw [h]
    rw [if_neg (fun hc => absurd ((hlt _ h10b _ h10b).1 hc) (lt_irrefl _)),
      if_neg (fun hc => absurd ((hlt _ h10b _ h10b).1 hc) (lt_irrefl _)), natCmp_self]
    rfl
  · rw [if_neg (fun hc => absurd ((hlt _ h10a _ h10b).1 hc) (by omega)),
      if_pos ((hlt _ h10b _ h10a).2 h)]
    have : natCmp (a % 10) (b % 10) = .gt := by simp [natCmp, h, Nat.lt_asymm h]
    rw [this]
    rfl

theorem decDigitsAux_small (f m : Nat) (hf : 0 < f) (hm : m < 10) :
    decDigitsAux f m = [digitChar m] := by
  rcases f with _ | f
  · omega
  · simp [decDigitsAux, hm]

theorem decDigitsAux_step (f m : Nat) (hf : 0 < f) (hm : ¬ m < 10) :
    decDigitsAux f m = decDigitsAux (f - 1) (m / 10) ++ [digitChar (m % 10)] := by
  rcases f with _ | f
  · omega
  · simp [decDigitsAux, hm]

/-- Two-digit expansion of the zero-padded formatter. -/
theorem fmt2_eq (n : Nat) (hn : n ≤ 99) :
    fmtInt 2 n = [digitChar (n / 10), digitChar (n % 10)] := by
  by_cases h : n < 10
  · have hdec : decDigits n = [digitChar n] := decDigitsAux_small _ _ (by omega) h
    unfold fmtInt
    rw [hdec]
    have hrep : List.replicate (2 - ([digitChar n] : List Char).length) '0' = ['0'] := rfl
    have hdiv : n / 10 = 0 := by omega
    rw [hdiv, hrep]
    have h0 : digitChar 0 = '0' := by decide
    have hmod : digitChar (n % 10) = digitChar n := digitChar_mod n
    rw [h0, hmod]
    rfl
  · have hdec : decDigits n = [digitChar (n / 10), digitChar (n % 10)] := by
      unfold decDigits
      rw [decDigitsAux_step _ _ (by omega) h,
        decDigitsAux_small _ _ (by omega) (by omega)]
      rfl
    unfold fmtInt
    rw [hdec]
    rfl

/-- Four-digit expansion of the zero-padded formatter. -/
theorem fmt4_eq (n : Nat) (hn : n ≤ 9999) :
    fmtInt 4 n = [digitChar (n / 1000), digitChar (n / 100 % 10),
      digitChar (n / 10 % 10), digitChar (n % 10)] := by
  by_cases h1 : n < 10
  · have hdec : decDigits n = [digitChar n] := decDigitsAux_small _ _ (by omega) h1
    unfold fmtInt
    rw [hdec]
    have hrep : List.replicate (4 - ([digitChar n] : List Char).length) '0' =
      ['0', '0', '0'] := rfl
    rw [hrep]
    have h0 : ('0' : Char) = digitChar 0 := by decide
    have e1 : n / 1000 = 0 := by omega
    have e2 : n / 100 % 10 = 0 := by omega
    have e3 : n / 10 % 10 = 0 := by omega
    rw [e1, e2, e3, ← digitChar_mod n, show n % 10 = n by omega, h0]
    rfl
  · by_cases h2 : n < 100
    · have hdec : decDigits n = [digitChar (n / 10), digitChar (n % 10)] := by
        unfold decDigits
        rw [decDigitsAux_step _ _ (by omega) h1,
          decDigitsAux_small _ _ (by omega) (by omega)]
        rfl
      unfold fmtInt
      rw [hdec]
      have hrep : List.replicate
          (4 - ([digitChar (n / 10), digitChar (n % 10)] : List Char).length) '0' =
        ['0', '0'] := rfl
      rw [hrep]
      have h0 : ('0' : Char) = digitChar 0 := by decide
      have e1 : n / 1000 = 0 := by omega
      have e2 : n / 100 % 10 = 0 := by omega
      have e3 : n / 10 % 10 = n / 10 := by omega
      rw [e1, e2, e3, h0]
      rfl
    · by_cases h3 : n < 1000
      · have hdec : decDigits n =
            [digitChar (n / 100), digitChar (n / 10 % 10), digitChar (n % 10)] := by
          unfold decDigits
          rw [decDigitsAux_step _ _ (by omega) h1,
            decDigitsAux_step _ _ (by omega) (by omega),
            decDigitsAux_small _ _ (by omega) (by omega)]
          have hdd : n / 10 / 10 = n / 100 := by omega
          have hmm : n / 10 % 10 = n / 10 % 10 := rfl
          rw [hdd]
          rfl
        unfold fmtInt
        rw [hdec]
        have hrep : List.replicate (4 -
            ([digitChar (n / 100), digitChar (n / 10 % 10), digitChar (n % 10)] :
              List Char).length) '0' = ['0'] := rfl
        rw [hrep]
        have h0 : ('0' : Char) = digitChar 0 := by decide
        have e1 : n / 1000 = 0 := by omega
        have e2 : n / 100 % 10 = n / 100 := by omega
        rw [e1, e2, h0]
        rfl
      · have hdec : decDigits n = [digitChar (n / 1000), digitChar (n / 100 % 10),
            digitChar (n / 10 % 10), digitChar (n % 10)] := by
          unfold decDigits
          rw [decDigitsAux_step _ _ (by omega) h1,
            decDigitsAux_step _ _ (by omega) (by omega),
            decDigitsAux_step _ _ (by omega) (by omega),
            decDigitsAux_small _ _ (by omega) (by omega)]
          have hd2 : n / 10 / 10 = n / 100 := by omega
          rw [hd2]
          have hd3 : n / 100 / 10 = n / 1000 := by omega
          rw [hd3]
          simp
        unfold fmtInt
        rw [hdec]
        rfl

theorem natCmp_gt {a b : Nat} (h : b < a) : natCmp a b = .gt := by
  unfold natCmp
  rw [if_neg (by omega), if_pos h]

/-- Comparing two 4-digit blocks digit by digit is comparing the numbers. -/
theorem natCmp4_then (x y : Nat) (hx : x ≤ 9999) (hy : y ≤ 9999) (K : Ordering) :
    (natCmp (x / 1000 % 10) (y / 1000 % 10)).then
      ((natCmp (x / 100 % 10) (y / 100 % 10)).then
        ((natCmp (x / 10 % 10) (y / 10 % 10)).then
          ((natCmp (x % 10) (y % 10)).then K))) = (natCmp x y).then K := by
  rcases Nat.lt_trichotomy (x / 1000 % 10) (y / 1000 % 10) with h3 | h3 | h3
  · rw [natCmp_lt h3, natCmp_lt (show x < y by omega)]; rfl
  · rw [h3, natCmp_self]
    rcases Nat.lt_trichotomy (x / 100 % 10) (y / 100 % 10) with h2 | h2 | h2
    · rw [natCmp_lt h2, natCmp_lt (show x < y by omega)]; rfl
    · rw [h2, natCmp_self]
      rcases Nat.lt_trichotomy (x / 10 % 10) (y / 10 % 10) with h1 | h1 | h1
      · rw [natCmp_lt h1, natCmp_lt (show x < y by omega)]; rfl
      · rw [h1, natCmp_self]
        rcases Nat.lt_trichotomy (x % 10) (y % 10) with h0 | h0 | h0
        · rw [natCmp_lt h0, natCmp_lt (show x < y by omega)]; rfl
        · rw [h0, natCmp_self, show x = y by omega, natCmp_self]; rfl
        · rw [natCmp_gt h0, natCmp_gt (show y < x by omega)]; rfl
      · rw [natCmp_gt h1, natCmp_gt (show y < x by omega)]; rfl
    · rw [natCmp_gt h2, natCmp_gt (show y < x by omega)]; rfl
  · rw [natCmp_gt h3, natCmp_gt (show y < x by omega)]; rfl

/-- Comparing two 2-digit blocks digit by digit is comparing the numbers. -/
theorem natCmp2_then (x y : Nat) (hx : x ≤ 99) (hy : y ≤ 99) (K : Ordering) :
    (natCmp (x / 10 % 10) (y / 10 % 10)).then ((natCmp (x % 10) (y % 10)).then K) =
      (natCmp x y).then K := by
  rcases Nat.lt_trichotomy (x / 10 % 10) (y / 10 % 10) with h1 | h1 | h1
  · rw [natCmp_lt h1, natCmp_lt (show x < y by omega)]; rfl
  · rw [h1, natCmp_self]
    rcases Nat.lt_trichotomy (x % 10) (y % 10) with h0 | h0 | h0
    · rw [natCmp_lt h0, natCmp_lt (show x < y by omega)]; rfl
    · rw [h0, natCmp_self, show x = y by omega, natCmp_self]; rfl
    · rw [natCmp_gt h0, natCmp_gt (show y < x by omega)]; rfl
  · rw [natCmp_gt h1, natCmp_gt (show y < x by omega)]; rfl

theorem lexCmp_nil : lexCmp [] [] = .eq := rfl

theorem mod10_mod10 (n : Nat) : n % 10 % 10 = n % 10 := by omega

/-- C7, amended: for a fixed base directory, valid timestamps with years
rendered in exactly four digits (year ≤ 9999) give lexically monotone
backup paths. -/
theorem claim_C7_amended (d : String) (t1 t2 : DateTime)
    (hv1 : ValidTime t1) (hv2 : ValidTime t2)
    (hy1 : t1.year ≤ 9999) (hy2 : t2.year ≤ 9999)
    (hle : chronoLE t1 t2) :
    lexLE (createBackupFilePath d t1) (createBackupFilePath d t2) := by
  obtain ⟨hm1a, hm1b, hd1a, hd1b, hh1, hmin1⟩ := hv1
  obtain ⟨hm2a, hm2b, hd2a, hd2b, hh2, hmin2⟩ := hv2
  unfold lexLE
  rw [createBackupFilePath_chars, createBackupFilePath_chars, lexCmp_append_same]
  show lexCmp
      ((fmtInt 4 t1.year ++ '-' :: fmtInt 2 t1.month) ++
        '/' :: 'd' :: 'u' :: 'm' :: 'p' :: '-' ::
          ((fmtInt 4 t1.year ++ fmtInt 2 t1.month ++ fmtInt 2 t1.day ++ fmtInt 2 t1.hour ++
            fmtInt 2 t1.minute) ++ ['.', 's', 'q', 'l']))
      ((fmtInt 4 t2.year ++ '-' :: fmtInt 2 t2.month) ++
        '/' :: 'd' :: 'u' :: 'm' :: 'p' :: '-' ::
          ((fmtInt 4 t2.year ++ fmtInt 2 t2.month ++ fmtInt 2 t2.day ++ fmtInt 2 t2.hour ++
            fmtInt 2 t2.minute) ++ ['.', 's', 'q', 'l'])) ≠ Ordering.gt
  rw [fmt4_eq t1.year hy1, fmt4_eq t2.year hy2,
    fmt2_eq t1.month (by omega), fmt2_eq t2.month (by omega),
    fmt2_eq t1.day (by omega), fmt2_eq t2.day (by omega),
    fmt2_eq t1.hour (by omega), fmt2_eq t2.hour (by omega),
    fmt2_eq t1.minute (by omega), fmt2_eq t2.minute (by omega)]
  simp only [List.cons_append, List.append_assoc, List.nil_append, List.append_nil]
  simp only [lexCmp_digit, lexCmp_cons_same, lexCmp_nil, mod10_mod10]
  rw [natCmp4_then t1.year t2.year hy1 hy2,
    natCmp2_then t1.month t2.month (by omega) (by omega),
    natCmp4_then t1.year t2.year hy1 hy2,
    natCmp2_then t1.month t2.month (by omega) (by omega),
    natCmp2_then t1.day t2.day (by omega) (by omega),
    natCmp2_then t1.hour t2.hour (by omega) (by omega),
    natCmp2_then t1.minute t2.minute (by omega) (by omega)]
  rcases hle with h | ⟨hy, hrest⟩
  · rw [natCmp_lt h]
    exact fun hcon => Ordering.noConfusion hcon
  · rw [hy]
    simp only [natCmp_self]
    rcases hrest with h | ⟨hmo, hrest⟩
    · rw [natCmp_lt h]
      exact fun hcon => Ordering.noConfusion hcon
    · rw [hmo]
      simp only [natCmp_self]
      rcases hrest with h | ⟨hda, hrest⟩
      · rw [natCmp_lt h]
        exact fun hcon => Ordering.noConfusion hcon
      · rw [hda]
        simp only [natCmp_self]
        rcases hrest with h | ⟨hho, hmi⟩
        · rw [natCmp_lt h]
          exact fun hcon => Ordering.noConfusion hcon
        · rw [hho]
          simp only [natCmp_self]
          by_cases hlt : t1.minute < t2.minute
          · rw [natCmp_lt hlt]
            exact fun hcon => Ordering.noConfusion hcon
          · rw [show t1.minute = t2.minute by omega, natCmp_self]
            exact fun hcon => Ordering.noConfusion hcon

/-- C7 as stated is false for unbounded years: Go renders year 10000 in
five digits, so the path for 10000-01 sorts lexically before the path for
9999-12 although it is chronologically later. -/
theorem claim_C7_counterexample :
    ValidTime ⟨9999, 12, 31, 23, 59⟩ ∧ ValidTime ⟨10000, 1, 1, 0, 0⟩ ∧
    chronoLE ⟨9999, 12, 31, 23, 59⟩ ⟨10000, 1, 1, 0, 0⟩ ∧
    ¬ lexLE (createBackupFilePath "/backup" ⟨9999, 12, 31, 23, 59⟩)
        (createBackupFilePath "/backup" ⟨10000, 1, 1, 0, 0⟩) :=
  ⟨by decide, by decide, by decide, by decide⟩

/-- Witness for C7 at concrete timestamps. -/
theorem claim_C7_witness :
    lexLE (createBackupFilePath "/backup" ⟨2024, 1, 15, 9, 30⟩)
      (createBackupFilePath "/backup" ⟨2024, 2, 1, 0, 0⟩) :=
  claim_C7_amended "/backup" ⟨2024, 1, 15, 9, 30⟩ ⟨2024, 2, 1, 0, 0⟩ (by decide) (by decide)
    (by decide) (by decide) (by decide)

/-! ## Claim theorems: the orchestration pipeline -/

theorem bind_eq_bind {α β : Type} (x : Exec α) (f : α → Exec β) :
    (x >>= f) = Exec.bind x f := rfl

theorem pure_eq_pure {α : Type} (a : α) : (Pure.pure a : Exec α) = Exec.pure a := rfl

/-- An environment given by a finite association list; every other
variable is unset (reads as `""`). -/
def envOf (l : List (String × String)) : Env :=
  fun n => (((l.find? (fun p => p.1 = n)).map (fun p => p.2)).getD "")

/-- Events that invoke one of the three external collaborators (the dump
tool, the encryption primitive, the upload client). -/
def collaboratorCall : Event → Bool
  | .runDump _ _ _ => true
  | .encryptCall _ _ => true
  | .s3Upload _ _ _ _ => true
  | _ => false

/-- Events that create a file-system entry or perform a network call. -/
def fileOrNetwork : Event → Bool
  | .mkdirAll _ => true
  | .runDump _ _ _ => true
  | .writeFile _ _ => true
  | .s3Upload _ _ _ _ => true
  | _ => false

/-- The stdout lines of a trace, in order. -/
def stdoutLines (tr : List Event) : List String :=
  tr.filterMap fun e => match e with
    | .stdout s => some s
    | _ => none

/-- A fully successful collaborator world. -/
def okCollab : Collab :=
  { dumpMkdir := none, dumpRun := .exited 0, keyFile := .ok [1],
    encMkdir := none, readSrc := .ok [2],
    compressAndEncrypt := fun _ _ => ([3], none),
    writeDst := none, uploadOpen := none, uploadErr := none }

/-- A collaborator world where the encryption primitive and the
destination write both fail. -/
def failingCrypto : Collab :=
  { dumpMkdir := none, dumpRun := .exited 0, keyFile := .ok [1],
    encMkdir := none, readSrc := .ok [2],
    compressAndEncrypt := fun _ _ => ([], some "encryption primitive failed"),
    writeDst := some "destination unwritable", uploadOpen := none, uploadErr := none }

/-- C1 is violated by the code: when the compress-and-encrypt primitive
fails and the destination write fails, `encryptBackupFile` still returns
`nil` (the `err` from `CompressAndEncrypt` is overwritten unchecked and
the function ends in `return nil`), and a live run completes with
success. -/
theorem claim_C1_code_bug :
    (encryptBackupFile failingCrypto "/e/2024-01/dump-x-sql.cf" [1] "/b/2024-01/dump-x.sql").2 =
      Except.ok none ∧
    (mainRun ⟨false, false⟩ (envOf [(mysqlUserEnvVar, "u"), (mysqlPassEnvVar, "p"),
      (backupDirEnvVar, "/b"), (encryptedBackupDirEnvVar, "/e"), (encryptionKey, "/k"),
      (s3BackupRegionEnvVar, "r"), (s3BackupBucketEnvVar, "bk")])
      failingCrypto ⟨2024, 1, 15, 9, 30⟩).2 = .completed := by
  constructor
  · rfl
  · rfl

/-- C6: when the dump tool runs and exits with code 2, the process exits
with status 1 and prints a diagnostic containing the character `2` to the
error stream. -/
theorem claim_C6 (env : Env) (ext : Collab) (t : DateTime)
    (hb : env backupDirEnvVar ≠ "") (hu : env mysqlUserEnvVar ≠ "")
    (hp : env mysqlPassEnvVar ≠ "") (hmk : ext.dumpMkdir = none)
    (hrun : ext.dumpRun = .exited 2) :
    (mainRun ⟨false, false⟩ env ext t).2 = .exited 1 ∧
    ∃ s, Event.stderr s ∈ (mainRun ⟨false, false⟩ env ext t).1 ∧ '2' ∈ s.data := by
  have hmain : mainRun ⟨false, false⟩ env ext t =
      ([.mkdirAll (goDir (createBackupFilePath (env backupDirEnvVar) t)),
        .runDump (env mysqlUserEnvVar) (env mysqlPassEnvVar)
          (createBackupFilePath (env backupDirEnvVar) t),
        .stderr "mysql backup failed: exit status 2\n"], .exited 1) := by
    simp only [mainRun, mainExec, bind_eq_bind, pure_eq_pure, getenv, dumpMysql, emit,
      exitProc, Exec.bind, Exec.pure, hmk, hrun, runError, if_neg hb, if_neg hu, if_neg hp]
    rfl
  rw [hmain]
  exact ⟨rfl, "mysql backup failed: exit status 2\n", by simp, by decide⟩

/-- Witness for C6 at a concrete configuration. -/
theorem claim_C6_witness :
    (mainRun ⟨false, false⟩ (envOf [(backupDirEnvVar, "/b"), (mysqlUserEnvVar, "u"),
      (mysqlPassEnvVar, "p")]) { okCollab with dumpRun := .exited 2 }
      ⟨2024, 1, 15, 9, 30⟩).2 = .exited 1 ∧
    ∃ s, Event.stderr s ∈ (mainRun ⟨false, false⟩ (envOf [(backupDirEnvVar, "/b"),
      (mysqlUserEnvVar, "u"), (mysqlPassEnvVar, "p")])
      { okCollab with dumpRun := .exited 2 } ⟨2024, 1, 15, 9, 30⟩).1 ∧ '2' ∈ s.data :=
  claim_C6 _ _ _ (by decide) (by decide) (by decide) rfl rfl

/-- The full seven-variable environment used in concrete runs. -/
def fullEnv : Env :=
  envOf [(mysqlUserEnvVar, "u"), (mysqlPassEnvVar, "p"), (backupDirEnvVar, "/b"),
    (encryptedBackupDirEnvVar, "/e"), (encryptionKey, "/k"),
    (s3BackupRegionEnvVar, "r"), (s3BackupBucketEnvVar, "bk")]

/-- C2 as stated is false: in a live run with the encrypted-backup
directory variable unset, the process only aborts after the dump step has
already created the target directory and invoked the dump tool (which
writes the dump file and talks to the database). -/
theorem claim_C2_counterexample :
    (mainRun ⟨false, false⟩ (envOf [(backupDirEnvVar, "/b"), (mysqlUserEnvVar, "u"),
      (mysqlPassEnvVar, "p")]) okCollab ⟨2024, 1, 15, 9, 30⟩).2 = .exited 1 ∧
    Event.mkdirAll "/b/2024-01" ∈ (mainRun ⟨false, false⟩
      (envOf [(backupDirEnvVar, "/b"), (mysqlUserEnvVar, "u"), (mysqlPassEnvVar, "p")])
      okCollab ⟨2024, 1, 15, 9, 30⟩).1 ∧
    Event.runDump "u" "p" "/b/2024-01/dump-202401150930.sql" ∈ (mainRun ⟨false, false⟩
      (envOf [(backupDirEnvVar, "/b"), (mysqlUserEnvVar, "u"), (mysqlPassEnvVar, "p")])
      okCollab ⟨2024, 1, 15, 9, 30⟩).1 :=
  ⟨by decide, by decide, by decide⟩

/-- C2, amended: a dry run performs no file-system or network side effect
at all and aborts with exit 1 when any of the four variables it consults
is unset; a live run aborts before any side effect only for the plaintext
backup-directory variable — later variables are checked lazily at their
step boundaries. -/
theorem claim_C2_amended :
    (∀ (env : Env) (ext : Collab) (t : DateTime),
      ((mainRun ⟨true, false⟩ env ext t).1.all fun e => !fileOrNetwork e) = true) ∧
    (∀ (env : Env) (ext : Collab) (t : DateTime),
      (env backupDirEnvVar = "" ∨ env encryptedBackupDirEnvVar = "" ∨
        env s3BackupRegionEnvVar = "" ∨ env s3BackupBucketEnvVar = "") →
      (mainRun ⟨true, false⟩ env ext t).2 = .exited 1) ∧
    (∀ (env : Env) (ext : Collab) (t : DateTime), env backupDirEnvVar = "" →
      mainRun ⟨false, false⟩ env ext t =
        ([.stderr ("cannot get env var " ++ backupDirEnvVar)], .exited 1)) := by
  refine ⟨?_, ?_, ?_⟩
  · intro env ext t
    by_cases h1 : env backupDirEnvVar = "" <;>
      by_cases h2 : env encryptedBackupDirEnvVar = "" <;>
        by_cases h3 : env s3BackupRegionEnvVar = "" <;>
          by_cases h4 : env s3BackupBucketEnvVar = "" <;>
            simp [mainRun, mainExec, bind_eq_bind, pure_eq_pure, getenv, emit, exitProc,
              Exec.bind, Exec.pure, h1, h2, h3, h4, fileOrNetwork]
  · intro env ext t h
    by_cases h1 : env backupDirEnvVar = ""
    · simp [mainRun, mainExec, bind_eq_bind, pure_eq_pure, getenv, emit, exitProc,
        Exec.bind, Exec.pure, h1]
    · by_cases h2 : env encryptedBackupDirEnvVar = ""
      · simp [mainRun, mainExec, bind_eq_bind, pure_eq_pure, getenv, emit, exitProc,
          Exec.bind, Exec.pure, h1, h2]
      · by_cases h3 : env s3BackupRegionEnvVar = ""
        · simp [mainRun, mainExec, bind_eq_bind, pure_eq_pure, getenv, emit, exitProc,
            Exec.bind, Exec.pure, h1, h2, h3]
        · by_cases h4 : env s3BackupBucketEnvVar = ""
          · simp [mainRun, mainExec, bind_eq_bind, pure_eq_pure, getenv, emit, exitProc,
              Exec.bind, Exec.pure, h1, h2, h3, h4]
          · rcases h with h | h | h | h
            · exact absurd h h1
            · exact absurd h h2
            · exact absurd h h3
            · exact absurd h h4
  · intro env ext t h
    simp [mainRun, mainExec, bind_eq_bind, pure_eq_pure, getenv, emit, exitProc,
      Exec.bind, Exec.pure, h]

/-- Witness for C2 at a concrete configuration with no variables set. -/
theorem claim_C2_witness :
    mainRun ⟨false, false⟩ (envOf []) okCollab ⟨2024, 1, 15, 9, 30⟩ =
      ([.stderr ("cannot get env var " ++ backupDirEnvVar)], .exited 1) :=
  claim_C2_amended.2.2 (envOf []) okCollab ⟨2024, 1, 15, 9, 30⟩ (by decide)

/-- C4 as stated is false in its output clause: live mode's first
side-effecting step (creating the dump directory) happens before its
first output line, so the text live mode prints before any side-effecting
step is empty, while dry-run prints four lines; the dry-run output is not
byte-identical to the full live output either, because the live
encryption step prints two extra diagnostic lines. -/
theorem claim_C4_counterexample :
    stdoutLines (mainRun ⟨true, false⟩ fullEnv okCollab ⟨2024, 1, 15, 9, 30⟩).1 ≠
      stdoutLines ((mainRun ⟨false, false⟩ fullEnv okCollab ⟨2024, 1, 15, 9, 30⟩).1.takeWhile
        fun e => !fileOrNetwork e) ∧
    stdoutLines (mainRun ⟨true, false⟩ fullEnv okCollab ⟨2024, 1, 15, 9, 30⟩).1 ≠
      stdoutLines (mainRun ⟨false, false⟩ fullEnv okCollab ⟨2024, 1, 15, 9, 30⟩).1 :=
  ⟨by decide, by decide⟩

/-- C4, amended: dry-run never invokes the dump tool, the encryption
primitive or the upload client, and each path/key line it prints appears
byte-identically and in the same order in live mode's output (the dry-run
stdout is a sublist of the live stdout); live mode only prints additional
lines and performs its side effects between them. -/
theorem claim_C4_amended :
    (∀ (env : Env) (ext : Collab) (t : DateTime),
      ((mainRun ⟨true, false⟩ env ext t).1.all fun e => !collaboratorCall e) = true) ∧
    (∀ (env : Env) (ext : Collab) (t : DateTime) (kbytes pbytes : List Nat),
      env backupDirEnvVar ≠ "" → env encryptedBackupDirEnvVar ≠ "" →
      env s3BackupRegionEnvVar ≠ "" → env s3BackupBucketEnvVar ≠ "" →
      env encryptionKey ≠ "" → env mysqlUserEnvVar ≠ "" → env mysqlPassEnvVar ≠ "" →
      ext.dumpMkdir = none → ext.dumpRun = .exited 0 → ext.keyFile = .ok kbytes →
      ext.encMkdir = none → ext.readSrc = .ok pbytes →
      ext.uploadOpen = none → ext.uploadErr = none →
      List.Sublist (stdoutLines (mainRun ⟨true, false⟩ env ext t).1)
        (stdoutLines (mainRun ⟨false, false⟩ env ext t).1)) := by
  constructor
  · intro env ext t
    by_cases h1 : env backupDirEnvVar = "" <;>
      by_cases h2 : env encryptedBackupDirEnvVar = "" <;>
        by_cases h3 : env s3BackupRegionEnvVar = "" <;>
          by_cases h4 : env s3BackupBucketEnvVar = "" <;>
            simp [mainRun, mainExec, bind_eq_bind, pure_eq_pure, getenv, emit, exitProc,
              Exec.bind, Exec.pure, h1, h2, h3, h4, collaboratorCall]
  · intro env ext t kbytes pbytes hb he hr hbk hk hu hp hdm hdr hkf hem hrs huo hue
    have hdry : stdoutLines (mainRun ⟨true, false⟩ env ext t).1 =
        ["database backed up to " ++ createBackupFilePath (env backupDirEnvVar) t ++ "\n",
         "encrypted file: " ++
           encryptedBackupResult (createBackupFilePath (env encryptedBackupDirEnvVar) t) ++ "\n",
         "region: " ++ env s3BackupRegionEnvVar ++ "\n",
         "S3 key: " ++ createS3Key (encryptedBackupResult
           (createBackupFilePath (env encryptedBackupDirEnvVar) t)) ++ "\n"] := by
      simp [mainRun, mainExec, bind_eq_bind, pure_eq_pure, getenv, emit, exitProc,
        Exec.bind, Exec.pure, hb, he, hr, hbk, stdoutLines]
    have hlive : stdoutLines (mainRun ⟨false, false⟩ env ext t).1 =
        ["database backed up to " ++ createBackupFilePath (env backupDirEnvVar) t ++ "\n",
         "dstPath " ++
           encryptedBackupResult (createBackupFilePath (env encryptedBackupDirEnvVar) t) ++ "\n",
         "dst dir " ++ goDir (encryptedBackupResult
           (createBackupFilePath (env encryptedBackupDirEnvVar) t)) ++ "\n",
         "encrypted file: " ++
           encryptedBackupResult (createBackupFilePath (env encryptedBackupDirEnvVar) t) ++ "\n",
         "region: " ++ env s3BackupRegionEnvVar ++ "\n",
         "S3 key: " ++ createS3Key (encryptedBackupResult
           (createBackupFilePath (env encryptedBackupDirEnvVar) t)) ++ "\n"] := by
      simp [mainRun, mainExec, bind_eq_bind, pure_eq_pure, getenv, emit, exitProc,
        Exec.bind, Exec.pure, dumpMysql, getEncryptionKey, encryptBackupFile, uploadToS3,
        runError, exitCodeOf, hb, he, hr, hbk, hk, hu, hp, hdm, hdr, hkf, hem, hrs, huo, hue,
        stdoutLines]
    rw [hdry, hlive]
    refine List.Sublist.cons₂ _ ?_
    refine List.Sublist.cons _ ?_
    refine List.Sublist.cons _ ?_
    refine List.Sublist.cons₂ _ ?_
    refine List.Sublist.cons₂ _ ?_
    exact List.Sublist.cons₂ _ List.Sublist.slnil

/-- Witness for C4 at a concrete configuration. -/
theorem claim_C4_witness :
    List.Sublist (stdoutLines (mainRun ⟨true, false⟩ fullEnv okCollab ⟨2024, 1, 15, 9, 30⟩).1)
      (stdoutLines (mainRun ⟨false, false⟩ fullEnv okCollab ⟨2024, 1, 15, 9, 30⟩).1) :=
  claim_C4_amended.2 fullEnv okCollab ⟨2024, 1, 15, 9, 30⟩ [1] [2] (by decide) (by decide)
    (by decide) (by decide) (by decide) (by decide) (by decide) rfl rfl rfl rfl rfl rfl rfl
